import Mathlib

/-!
# Verification of the asset-graph builder orchestrator

A shallow embedding of `src/packages/core/core/src/requests/AssetGraphRequest.js`
(the `AssetGraphBuilder` class and `createAssetGraphRequest`), together with
proofs about its traversal, dispatch, error-aggregation and commit behaviour.

Modelling conventions:

* Node ids, payload values, request ids and error values are `Nat` (they are
  opaque to the orchestrator).
* The external `AssetGraph` (graph storage) and `RunAPI` (cache/memoization
  service) are not part of the source file; they are modelled from the spec as
  parameter structures (`AssetGraphImpl`, `RunAPI`).
* Asynchronous execution is serialized at task granularity: each `async`
  builder method is split into its synchronous prefix (run at dispatch time,
  before the first `await`) and its continuation (run at settlement time).
  Settled-but-unprocessed work lives in an explicit `pending` list; the order
  in which queued requests settle is an oracle `sched : Nat → Nat` choosing the
  next pending item, covering every settlement order of the promise queue.
* Divergence is made observable with a fuel parameter: a result of `.fuelOut`
  for every fuel value is exactly a non-terminating run of the source.
-/

/-- The `type` tags of `AssetGraphNode` appearing in the source. -/
inductive NodeType where
  | root
  | entry_specifier
  | entry_file
  | dependency
  | asset_group
  | asset
deriving DecidableEq

/-- A graph node, with the attributes the orchestrator reads:
`id`, `type`, `value` (the kind-specific payload, opaque here), `complete`,
`correspondingRequest` and `hasDeferred`. -/
structure AssetGraphNode where
  id : Nat
  type : NodeType
  value : Nat
  complete : Bool
  correspondingRequest : Option Nat
  hasDeferred : Bool
deriving DecidableEq

/-- A produced asset; only its `id` is inspected (key of `changedAssets`). -/
structure Asset where
  id : Nat
  content : Nat
deriving DecidableEq

/-- Modelled from the spec: the external `AssetGraph` interface (§4.3) — the
source file `AssetGraph.js` is not under `src/`.  `σ` is the graph state;
`getRootNode`, `getNodesConnectedFrom` and `shouldVisitChild` are the read
operations the builder consumes, and the four `resolve*` operations are the
fold-in mutations invoked when a sub-request succeeds. -/
structure AssetGraphImpl (σ : Type) where
  getRootNode : σ → Option AssetGraphNode
  getNodesConnectedFrom : σ → AssetGraphNode → List AssetGraphNode
  shouldVisitChild : σ → AssetGraphNode → AssetGraphNode → Bool
  resolveEntry : σ → Nat → List Nat → Nat → σ
  resolveTargets : σ → Nat → List Nat → Nat → σ
  resolveDependency : σ → Nat → Option Nat → Nat → σ
  resolveAssetGroup : σ → Nat → List Asset → Nat → σ

/-- Modelled from the spec: the external `RunAPI` (cache/memoization service,
§6) — `RequestTracker.js` is not under `src/`.  `canSkipSubrequest` is the
cache-validity check; the four `run*` fields are the outcomes of
`api.runRequest` for the four request kinds (`.error e` is a rejected
subrequest carrying the opaque error `e`):
entry request → `EntryResult.entries`, target request → `Array<Target>`,
path request → `?AssetGroup`, asset request → `Array<Asset>` (the source
additionally null-checks the asset result, hence the inner `Option`). -/
structure RunAPI where
  canSkipSubrequest : Nat → Bool
  runEntry : Nat → Except Nat (List Nat)
  runTarget : Nat → Except Nat (List Nat)
  runPath : Nat → Except Nat (Option Nat)
  runAsset : Nat → Except Nat (Option (List Asset))

/-- Modelled from the spec: request factories produce a stable request id per
descriptor (§6); `md5` hashing is replaced by injective tagging. -/
def entryRequestId (input : Nat) : Nat := 4 * input

/-- Stable id of a target request for a given entry payload. -/
def targetRequestId (input : Nat) : Nat := 4 * input + 1

/-- Stable id of a path request for a given dependency payload. -/
def pathRequestId (input : Nat) : Nat := 4 * input + 2

/-- Stable id of an asset request for a given asset-group payload. -/
def assetRequestId (input : Nat) : Nat := 4 * input + 3

/-- `PARCEL_VERSION` from `constants.js`, opaque here. -/
def PARCEL_VERSION : Nat := 2

/-- The cache key of a pass: `md5FromObject({parcelVersion, name, entries})`,
with the hash replaced by the injectively tagged tuple itself. -/
structure CacheKey where
  parcelVersion : Nat
  name : Nat
  entries : List Nat
deriving DecidableEq

/-- `this.cacheKey = md5FromObject({parcelVersion: PARCEL_VERSION, name, entries})`. -/
def mkCacheKey (name : Nat) (entries : List Nat) : CacheKey :=
  ⟨PARCEL_VERSION, name, entries⟩

/-- `const typesWithRequests = new Set([...])` — the four requestable kinds. -/
def typesWithRequests : List NodeType :=
  [.entry_specifier, .entry_file, .dependency, .asset_group]

/-- The mutable state of one `build()` pass: the graph, the local `visited`
id-set and `errors` list, the accumulated `changedAssets` map (association
list in insertion order, mirroring a JS `Map`) and `assetRequests` list, the
promise queue's unsettled submissions `pending`, and a ghost log `settled` of
requests that have settled (for observing that queued work is never dropped). -/
structure BuilderState (σ : Type) where
  graph : σ
  visited : List Nat
  errors : List Nat
  changedAssets : List (Nat × Asset)
  assetRequests : List Nat
  pending : List AssetGraphNode
  settled : List AssetGraphNode
deriving DecidableEq

/-- Outcome of a traversal phase: out of fuel (the source diverges past this
point), a synchronously thrown structural error, or a resulting state. -/
inductive Step (σ : Type) where
  | fuelOut
  | fatal (e : Nat ⊕ NodeType)
  | ok (st : BuilderState σ)
deriving DecidableEq

/-- What `build()` can throw: the missing-root structural error, the
unknown-node-type structural error of `queueCorrespondingRequest`'s `default`
branch, or `errors[0]` (a recorded sub-computation error). -/
inductive BuildError where
  | missingRoot
  | badNodeType (t : NodeType)
  | sub (e : Nat)
deriving DecidableEq

/-- `JS Map.set`: overwrite the value at an existing key in place, otherwise
append the new binding. -/
def mapSet (m : List (Nat × Asset)) (k : Nat) (v : Asset) : List (Nat × Asset) :=
  if m.any (fun p => p.1 == k) then
    m.map (fun p => if p.1 == k then (k, v) else p)
  else
    m ++ [(k, v)]

/-- `JS Map.get`. -/
def mapGet (m : List (Nat × Asset)) (k : Nat) : Option Asset :=
  (m.find? (fun p => p.1 == k)).map (fun p => p.2)

/-- `shouldSkipRequest(node)`:
`node.complete === true || !typesWithRequests.has(node.type) ||
 (node.correspondingRequest != null && api.canSkipSubrequest(node.correspondingRequest))`. -/
def shouldSkipRequest (api : RunAPI) (node : AssetGraphNode) : Bool :=
  node.complete ||
  !(typesWithRequests.contains node.type) ||
  (match node.correspondingRequest with
   | some req => api.canSkipSubrequest req
   | none => false)

/-- `queueCorrespondingRequest(node, errors)` — the dispatch switch.  Each of
the four cases starts the matching `run*Request` method; only its synchronous
prefix happens here: `runAssetRequest` first pushes its input onto
`this.assetRequests`, then all four await `api.runRequest`, so the node joins
`pending`.  The `default` branch throws the unknown-node-type error. -/
def queueCorrespondingRequest {σ : Type} (node : AssetGraphNode)
    (st : BuilderState σ) : Step σ :=
  match node.type with
  | .entry_specifier => .ok { st with pending := st.pending ++ [node] }
  | .entry_file => .ok { st with pending := st.pending ++ [node] }
  | .dependency => .ok { st with pending := st.pending ++ [node] }
  | .asset_group => .ok { st with
      assetRequests := st.assetRequests ++ [node.value],
      pending := st.pending ++ [node] }
  | t => .fatal (.inr t)

/-- Settlement of one queued request, i.e. the continuation of the matching
`run*Request` method after `await api.runRequest(request)`, plus the promise
queue's rejection handler `error => errors.push(error)`:

* `runEntryRequest`: `assetGraph.resolveEntry(input, result.entries, request.id)`;
* `runTargetRequest`: `assetGraph.resolveTargets(input, targets, request.id)`;
* `runPathRequest`: `assetGraph.resolveDependency(input, result, request.id)`
  (also on a null result — an unresolved dependency is not an error);
* `runAssetRequest`: when the result is non-null, `changedAssets.set(asset.id,
  asset)` for each produced asset and then `assetGraph.resolveAssetGroup`;
* on rejection, the error is appended to `errors` and nothing else happens.

The settled node is also appended to the ghost `settled` log. -/
def settleNode {σ : Type} (G : AssetGraphImpl σ) (api : RunAPI)
    (node : AssetGraphNode) (st : BuilderState σ) : BuilderState σ :=
  let stl := { st with settled := st.settled ++ [node] }
  match node.type with
  | .entry_specifier =>
    match api.runEntry node.value with
    | .ok entries => { stl with
        graph := G.resolveEntry stl.graph node.value entries (entryRequestId node.value) }
    | .error e => { stl with errors := stl.errors ++ [e] }
  | .entry_file =>
    match api.runTarget node.value with
    | .ok targets => { stl with
        graph := G.resolveTargets stl.graph node.value targets (targetRequestId node.value) }
    | .error e => { stl with errors := stl.errors ++ [e] }
  | .dependency =>
    match api.runPath node.value with
    | .ok result => { stl with
        graph := G.resolveDependency stl.graph node.value result (pathRequestId node.value) }
    | .error e => { stl with errors := stl.errors ++ [e] }
  | .asset_group =>
    match api.runAsset node.value with
    | .ok (some assets) => { stl with
        changedAssets := assets.foldl (fun m a => mapSet m a.id a) stl.changedAssets,
        graph := G.resolveAssetGroup stl.graph node.value assets (assetRequestId node.value) }
    | .ok none => stl
    | .error e => { stl with errors := stl.errors ++ [e] }
  | _ => stl

/-- The `for (let child of getNodesConnectedFrom(node))` loop body of
`visitChildren`, abstracted over the recursive `visit` (`visitF`):
a child is handled when `(!visited.has(child.id) || child.hasDeferred) &&
shouldVisitChild(node, child)`, in which case its id is added to `visited`
before the recursive visit. -/
def visitChildrenF {σ : Type} (G : AssetGraphImpl σ)
    (visitF : AssetGraphNode → BuilderState σ → Step σ) :
    List AssetGraphNode → AssetGraphNode → BuilderState σ → Step σ
  | [], _, st => .ok st
  | child :: rest, node, st =>
    if (!(st.visited.contains child.id) || child.hasDeferred) &&
        G.shouldVisitChild st.graph node child then
      match visitF child { st with visited := child.id :: st.visited } with
      | .ok st' => visitChildrenF G visitF rest node st'
      | r => r
    else
      visitChildrenF G visitF rest node st

/-- `const visit = node => {...}`: return at once when an error has been
recorded; otherwise either skip straight to `visitChildren(node)` or dispatch
via `queueCorrespondingRequest` (children are then visited only after that
request settles, in `drain`).  Fuel decreases once per nesting level of the
mutual recursion. -/
def visit {σ : Type} (G : AssetGraphImpl σ) (api : RunAPI) :
    Nat → AssetGraphNode → BuilderState σ → Step σ
  | 0, _, _ => .fuelOut
  | fuel + 1, node, st =>
    if st.errors ≠ [] then .ok st
    else if shouldSkipRequest api node then
      visitChildrenF G (visit G api fuel) (G.getNodesConnectedFrom st.graph node) node st
    else
      queueCorrespondingRequest node st

/-- `const visitChildren = node => {...}`: iterate the children currently
connected from `node`. -/
def visitChildren {σ : Type} (G : AssetGraphImpl σ) (api : RunAPI) (fuel : Nat)
    (node : AssetGraphNode) (st : BuilderState σ) : Step σ :=
  visitChildrenF G (visit G api fuel) (G.getNodesConnectedFrom st.graph node) node st

/-- `await this.queue.run()`: repeatedly pick a pending submission (the
settlement-order oracle `sched` chooses which settles next), apply its
settlement, then run the chained `.then(() => visitChildren(node))`.  The
drain completes when `pending` is empty, including work submitted during the
drain itself. -/
def drain {σ : Type} (G : AssetGraphImpl σ) (api : RunAPI) (sched : Nat → Nat) :
    Nat → BuilderState σ → Step σ
  | 0, st => if st.pending.isEmpty then .ok st else .fuelOut
  | fuel + 1, st =>
    match st.pending with
    | [] => .ok st
    | p :: ps =>
      let i := sched fuel % (p :: ps).length
      let node := (p :: ps).getD i p
      let st1 := { st with pending := (p :: ps).eraseIdx i }
      let st2 := settleNode G api node st1
      match visitChildren G api fuel node st2 with
      | .ok st3 => drain G api sched fuel st3
      | r => r

/-- The traversal of one `build()` pass: check the root, seed `visited` with
the root id, `visit(root)`, then drain the queue. -/
def buildTrace {σ : Type} (G : AssetGraphImpl σ) (api : RunAPI)
    (sched : Nat → Nat) (fuel : Nat) (g0 : σ) : Step σ :=
  match G.getRootNode g0 with
  | none => .fatal (.inl 0)
  | some root =>
    match visit G api fuel root ⟨g0, [root.id], [], [], [], [], []⟩ with
    | .ok st1 => drain G api sched fuel st1
    | r => r

/-- What `api.storeResult(..., this.cacheKey)` receives. -/
structure StoredResult (σ : Type) where
  assetGraph : σ
  changedAssets : List (Nat × Asset)
  assetRequests : List Nat
  cacheKey : CacheKey
deriving DecidableEq

/-- The value `build()` returns on success. -/
structure BuildSuccess (σ : Type) where
  assetGraph : σ
  changedAssets : List (Nat × Asset)
  assetRequests : List Nat
deriving DecidableEq

/-- The observable outcome of `build()`: `result` is `none` when the pass runs
out of fuel (divergence), otherwise the thrown error or returned value;
`stored` is what was committed to the cache, when `storeResult` was reached. -/
structure BuildOutput (σ : Type) where
  result : Option (Except BuildError (BuildSuccess σ))
  stored : Option (StoredResult σ)

/-- `async build()`: throw if the root is missing; run the traversal and the
drain; commit `{assetGraph, changedAssets: new Map(), assetRequests: []}`
under the cache key; then throw `errors[0]` if any error was recorded, else
return the accumulated result.  A structural error thrown by the traversal
aborts the pass before `storeResult`. -/
def build {σ : Type} (G : AssetGraphImpl σ) (api : RunAPI) (sched : Nat → Nat)
    (fuel : Nat) (name : Nat) (entries : List Nat) (g0 : σ) : BuildOutput σ :=
  match buildTrace G api sched fuel g0 with
  | .fuelOut => ⟨none, none⟩
  | .fatal (.inl _) => ⟨some (.error .missingRoot), none⟩
  | .fatal (.inr t) => ⟨some (.error (.badNodeType t)), none⟩
  | .ok st2 =>
    let stored : StoredResult σ := ⟨st2.graph, [], [], mkCacheKey name entries⟩
    match st2.errors with
    | e :: _ => ⟨some (.error (.sub e)), some stored⟩
    | [] => ⟨some (.ok ⟨st2.graph, st2.changedAssets, st2.assetRequests⟩), some stored⟩

/-- The dispatched subrequest for `node` rejects with the opaque error `e`. -/
def RequestRejects (api : RunAPI) (node : AssetGraphNode) (e : Nat) : Prop :=
  match node.type with
  | .entry_specifier => api.runEntry node.value = .error e
  | .entry_file => api.runTarget node.value = .error e
  | .dependency => api.runPath node.value = .error e
  | .asset_group => api.runAsset node.value = .error e
  | _ => False

/-! ## Concrete fixtures for witnesses and counterexamples -/

/-- A graph implementation over the trivial state, with a fixed root, child
function and gate, and identity resolve operations. -/
def unitGraph (root : Option AssetGraphNode)
    (children : AssetGraphNode → List AssetGraphNode)
    (gate : AssetGraphNode → AssetGraphNode → Bool) : AssetGraphImpl Unit where
  getRootNode _ := root
  getNodesConnectedFrom _ n := children n
  shouldVisitChild _ p c := gate p c
  resolveEntry g _ _ _ := g
  resolveTargets g _ _ _ := g
  resolveDependency g _ _ _ := g
  resolveAssetGroup g _ _ _ := g

/-- Fixture: a root node. -/
def rootNode : AssetGraphNode := ⟨0, .root, 0, false, none, false⟩

/-- Fixture: an asset-group node with payload 7. -/
def agNode : AssetGraphNode := ⟨1, .asset_group, 7, false, none, false⟩

/-- Fixture: a dependency node with payload 5. -/
def depNode1 : AssetGraphNode := ⟨2, .dependency, 5, false, none, false⟩

/-- Fixture: a dependency node with payload 6. -/
def depNode2 : AssetGraphNode := ⟨3, .dependency, 6, false, none, false⟩

/-- Fixture: a plain asset node (no request kind). -/
def assetNode : AssetGraphNode := ⟨4, .asset, 9, false, none, false⟩

/-- Fixture: root → {asset group, two dependencies}, gate always open. -/
def demoGraph : AssetGraphImpl Unit :=
  unitGraph (some rootNode)
    (fun n => if n.id = 0 then [agNode, depNode1, depNode2] else [])
    (fun _ _ => true)

/-- Fixture: both path requests reject (errors 55 and 66), the asset request
produces one asset with id 100. -/
def demoApiFail : RunAPI :=
  ⟨fun _ => false, fun _ => .ok [], fun _ => .ok [],
   fun v => if v = 5 then .error 55 else .error 66,
   fun _ => .ok (some [⟨100, 3⟩])⟩

/-- Fixture: every request succeeds; the asset request produces one asset. -/
def demoApiOk : RunAPI :=
  ⟨fun _ => false, fun _ => .ok [], fun _ => .ok [],
   fun _ => .ok none, fun _ => .ok (some [⟨100, 3⟩])⟩

/-- Fixture: first-in-first-out settlement order. -/
def fifo : Nat → Nat := fun _ => 0

/-- Fixture: the empty builder state over the trivial graph. -/
def emptyState : BuilderState Unit := ⟨(), [], [], [], [], [], []⟩

/-- Fixture: a graph without a root node. -/
def noRootGraph : AssetGraphImpl Unit := unitGraph none (fun _ => []) (fun _ _ => true)

/-- Fixture: the final drained state of a `demoGraph`/`demoApiFail` pass. -/
def failedPassState : BuilderState Unit :=
  ⟨(), [3, 2, 1, 0], [55, 66], [(100, ⟨100, 3⟩)], [7], [],
    [agNode, depNode1, depNode2]⟩

/-- Fixture: the final drained state of a `demoGraph`/`demoApiOk` pass. -/
def okPassState : BuilderState Unit :=
  ⟨(), [3, 2, 1, 0], [], [(100, ⟨100, 3⟩)], [7], [],
    [agNode, depNode1, depNode2]⟩

/-- Fixture: a state with a recorded error and one pending request. -/
def erroredState : BuilderState Unit := ⟨(), [], [9], [], [], [depNode1], []⟩

/-- The traversal of one `build` pass terminates: some fuel completes it. -/
def TraversalTerminates {σ : Type} (G : AssetGraphImpl σ) (api : RunAPI)
    (sched : Nat → Nat) (g0 : σ) : Prop :=
  ∃ fuel, buildTrace G api sched fuel g0 ≠ .fuelOut

/-- Fixture: an asset node with `hasDeferred` set, forming a self-loop. -/
def loopNode : AssetGraphNode := ⟨0, .asset, 0, false, none, true⟩

/-- Fixture: the one-node cyclic graph around `loopNode`, gate always open. -/
def loopGraph : AssetGraphImpl Unit :=
  unitGraph (some loopNode) (fun _ => [loopNode]) (fun _ _ => true)

/-- Every child the graph ever hands out has `hasDeferred` unset. -/
def NoDeferredChildren {σ : Type} (G : AssetGraphImpl σ) : Prop :=
  ∀ (g : σ) (n c : AssetGraphNode), c ∈ G.getNodesConnectedFrom g n →
    c.hasDeferred = false

/-- Every child id the graph ever hands out lies in the finite set `S`. -/
def IdsBounded {σ : Type} (G : AssetGraphImpl σ) (S : Finset Nat) : Prop :=
  ∀ (g : σ) (n c : AssetGraphNode), c ∈ G.getNodesConnectedFrom g n → c.id ∈ S

/-- The ids of `S` not yet in the visited set. -/
def unvisitedCard {σ : Type} (S : Finset Nat) (st : BuilderState σ) : Nat :=
  (S.filter (fun x => x ∉ st.visited)).card

/-- Gate-allowed reachability from `root` over a fixed child structure. -/
inductive ReachableFrom (children : AssetGraphNode → List AssetGraphNode)
    (gate : AssetGraphNode → AssetGraphNode → Bool) (root : AssetGraphNode) :
    AssetGraphNode → Prop
  | refl : ReachableFrom children gate root root
  | step {p c : AssetGraphNode} : ReachableFrom children gate root p →
      c ∈ children p → gate p c = true → ReachableFrom children gate root c

/-- The graph's read operations are fixed during the pass: child enumeration
and the visitation gate do not depend on the mutable graph state. -/
def StaticStructure {σ : Type} (G : AssetGraphImpl σ)
    (children : AssetGraphNode → List AssetGraphNode)
    (gate : AssetGraphNode → AssetGraphNode → Bool) : Prop :=
  (∀ g n, G.getNodesConnectedFrom g n = children n) ∧
  (∀ g p c, G.shouldVisitChild g p c = gate p c)

/-- All gate-allowed children of `p` have their ids in the visited set. -/
def Covered {σ : Type} (children : AssetGraphNode → List AssetGraphNode)
    (gate : AssetGraphNode → AssetGraphNode → Bool) (st : BuilderState σ)
    (p : AssetGraphNode) : Prop :=
  ∀ c ∈ children p, gate p c = true → c.id ∈ st.visited

/-- Traversal invariant: every reachable node whose id is visited is either
excused (on the list `X` of nodes currently being expanded), fully covered,
or pending in the queue. -/
def ReachInv {σ : Type} (children : AssetGraphNode → List AssetGraphNode)
    (gate : AssetGraphNode → AssetGraphNode → Bool) (root : AssetGraphNode)
    (st : BuilderState σ) (X : List Nat) : Prop :=
  ∀ p, ReachableFrom children gate root p → p.id ∈ st.visited →
    p.id ∈ X ∨ Covered children gate st p ∨ p ∈ st.pending

/-- Queue invariant: every pending node is reachable and already visited. -/
def PendInv {σ : Type} (children : AssetGraphNode → List AssetGraphNode)
    (gate : AssetGraphNode → AssetGraphNode → Bool) (root : AssetGraphNode)
    (st : BuilderState σ) : Prop :=
  ∀ q ∈ st.pending, ReachableFrom children gate root q ∧ q.id ∈ st.visited

/-! ## Generic preservation lemmas for the traversal -/

/-- Any reflexive-transitive relation that tolerates growing `visited` and is
preserved by the supplied `visitF` is preserved by the `visitChildren` loop. -/
theorem visitChildrenF_rel {σ : Type} {G : AssetGraphImpl σ}
    {visitF : AssetGraphNode → BuilderState σ → Step σ}
    (R : BuilderState σ → BuilderState σ → Prop)
    (hrefl : ∀ s, R s s)
    (htrans : ∀ a b c, R a b → R b c → R a c)
    (hvisited : ∀ (s : BuilderState σ) (x : Nat), R s { s with visited := x :: s.visited })
    (hF : ∀ c s s', visitF c s = .ok s' → R s s') :
    ∀ (cs : List AssetGraphNode) (node : AssetGraphNode) (st st' : BuilderState σ),
      visitChildrenF G visitF cs node st = .ok st' → R st st' := by
  intro cs
  induction cs with
  | nil =>
    intro node st st' h
    simp only [visitChildrenF] at h
    cases h
    exact hrefl st
  | cons child rest ih =>
    intro node st st' h
    simp only [visitChildrenF] at h
    split at h
    · revert h
      cases hv : visitF child { st with visited := child.id :: st.visited } with
      | ok s2 =>
        intro h
        exact htrans _ _ _ (htrans _ _ _ (hvisited st child.id) (hF _ _ _ hv)) (ih _ _ _ h)
      | fuelOut => intro h; cases h
      | fatal e => intro h; cases h
    · exact ih _ _ _ h

/-- The same preservation principle for `visit`, at every fuel. -/
theorem visit_rel {σ : Type} (G : AssetGraphImpl σ) (api : RunAPI)
    (R : BuilderState σ → BuilderState σ → Prop)
    (hrefl : ∀ s, R s s)
    (htrans : ∀ a b c, R a b → R b c → R a c)
    (hvisited : ∀ (s : BuilderState σ) (x : Nat), R s { s with visited := x :: s.visited })
    (hqueue : ∀ node (st st' : BuilderState σ),
      queueCorrespondingRequest node st = .ok st' → R st st') :
    ∀ (fuel : Nat) (node : AssetGraphNode) (st st' : BuilderState σ),
      visit G api fuel node st = .ok st' → R st st' := by
  intro fuel
  induction fuel with
  | zero => intro node st st' h; cases h
  | succ fuel ih =>
    intro node st st' h
    simp only [visit] at h
    split at h
    · cases h; exact hrefl st
    · split at h
      · exact visitChildrenF_rel R hrefl htrans hvisited ih _ _ _ _ h
      · exact hqueue _ _ _ h

/-- `queueCorrespondingRequest` only appends to `pending` (and, for an
asset group, to `assetRequests`); every other field is untouched. -/
theorem queue_ok_shape {σ : Type} (node : AssetGraphNode) (st st' : BuilderState σ)
    (h : queueCorrespondingRequest node st = .ok st') :
    st'.graph = st.graph ∧ st'.visited = st.visited ∧ st'.errors = st.errors ∧
    st'.changedAssets = st.changedAssets ∧ st'.settled = st.settled ∧
    st'.pending = st.pending ++ [node] ∧
    (∃ d, st'.assetRequests = st.assetRequests ++ d) := by
  unfold queueCorrespondingRequest at h
  split at h
  · cases h; exact ⟨rfl, rfl, rfl, rfl, rfl, rfl, [], by simp⟩
  · cases h; exact ⟨rfl, rfl, rfl, rfl, rfl, rfl, [], by simp⟩
  · cases h; exact ⟨rfl, rfl, rfl, rfl, rfl, rfl, [], by simp⟩
  · cases h; exact ⟨rfl, rfl, rfl, rfl, rfl, rfl, [node.value], rfl⟩
  · cases h

/-- The traversal (`visit`) never changes `errors`: errors are recorded only
at settlement, inside the drain. -/
theorem visit_errors_eq {σ : Type} (G : AssetGraphImpl σ) (api : RunAPI)
    (fuel : Nat) (node : AssetGraphNode) (st st' : BuilderState σ)
    (h : visit G api fuel node st = .ok st') : st'.errors = st.errors := by
  refine visit_rel G api (fun a b => b.errors = a.errors) (fun s => rfl)
    (fun a b c h1 h2 => h2.trans h1) (fun s x => rfl) ?_ fuel node st st' h
  intro n a b hq
  exact (queue_ok_shape n a b hq).2.2.1

/-- The traversal never changes the graph: mutations happen only at settlement. -/
theorem visit_graph_eq {σ : Type} (G : AssetGraphImpl σ) (api : RunAPI)
    (fuel : Nat) (node : AssetGraphNode) (st st' : BuilderState σ)
    (h : visit G api fuel node st = .ok st') : st'.graph = st.graph := by
  refine visit_rel G api (fun a b => b.graph = a.graph) (fun s => rfl)
    (fun a b c h1 h2 => h2.trans h1) (fun s x => rfl) ?_ fuel node st st' h
  intro n a b hq
  exact (queue_ok_shape n a b hq).1

/-- The traversal never settles anything. -/
theorem visit_settled_eq {σ : Type} (G : AssetGraphImpl σ) (api : RunAPI)
    (fuel : Nat) (node : AssetGraphNode) (st st' : BuilderState σ)
    (h : visit G api fuel node st = .ok st') : st'.settled = st.settled := by
  refine visit_rel G api (fun a b => b.settled = a.settled) (fun s => rfl)
    (fun a b c h1 h2 => h2.trans h1) (fun s x => rfl) ?_ fuel node st st' h
  intro n a b hq
  exact (queue_ok_shape n a b hq).2.2.2.2.1

/-- The traversal only appends to `pending`. -/
theorem visit_pending_ext {σ : Type} (G : AssetGraphImpl σ) (api : RunAPI)
    (fuel : Nat) (node : AssetGraphNode) (st st' : BuilderState σ)
    (h : visit G api fuel node st = .ok st') :
    ∃ d, st'.pending = st.pending ++ d := by
  refine visit_rel G api (fun a b => ∃ d, b.pending = a.pending ++ d)
    (fun s => ⟨[], by simp⟩) ?_ (fun s x => ⟨[], by simp⟩) ?_ fuel node st st' h
  · rintro a b c ⟨d1, h1⟩ ⟨d2, h2⟩
    exact ⟨d1 ++ d2, by simp [h2, h1]⟩
  · intro n a b hq
    exact ⟨[n], (queue_ok_shape n a b hq).2.2.2.2.2.1⟩

/-- The traversal only grows `visited`. -/
theorem visit_visited_mono {σ : Type} (G : AssetGraphImpl σ) (api : RunAPI)
    (fuel : Nat) (node : AssetGraphNode) (st st' : BuilderState σ)
    (h : visit G api fuel node st = .ok st') :
    ∀ x ∈ st.visited, x ∈ st'.visited := by
  refine visit_rel G api (fun a b => ∀ x ∈ a.visited, x ∈ b.visited)
    (fun s x hx => hx) (fun a b c h1 h2 x hx => h2 x (h1 x hx))
    (fun s y x hx => by simp [hx]) ?_ fuel node st st' h
  intro n a b hq x hx
  rw [(queue_ok_shape n a b hq).2.1]
  exact hx

/-- With a recorded error, a positive-fuel `visit` is a no-op. -/
theorem visit_noop_of_errors {σ : Type} (G : AssetGraphImpl σ) (api : RunAPI)
    (fuel : Nat) (node : AssetGraphNode) (st : BuilderState σ)
    (h : st.errors ≠ []) : visit G api (fuel + 1) node st = .ok st := by
  simp [visit, h]

/-- With a recorded error, the `visitChildren` loop can only grow `visited`. -/
theorem visitChildrenF_noop_of_errors {σ : Type} {G : AssetGraphImpl σ}
    {visitF : AssetGraphNode → BuilderState σ → Step σ}
    (hF : ∀ c (s : BuilderState σ), s.errors ≠ [] → visitF c s = .ok s) :
    ∀ (cs : List AssetGraphNode) (node : AssetGraphNode) (st : BuilderState σ),
      st.errors ≠ [] →
      ∃ v, visitChildrenF G visitF cs node st = .ok { st with visited := v } := by
  intro cs
  induction cs with
  | nil => intro node st h; exact ⟨st.visited, rfl⟩
  | cons child rest ih =>
    intro node st h
    simp only [visitChildrenF]
    split
    · rw [hF child { st with visited := child.id :: st.visited } h]
      obtain ⟨v, hv⟩ := ih node { st with visited := child.id :: st.visited } h
      exact ⟨v, hv⟩
    · exact ih node st h

/-- The `visitChildren` loop never throws when `visitF` never throws. -/
theorem visitChildrenF_ne_fatal {σ : Type} {G : AssetGraphImpl σ}
    {visitF : AssetGraphNode → BuilderState σ → Step σ}
    (hF : ∀ c (s : BuilderState σ) e, visitF c s ≠ .fatal e) :
    ∀ (cs : List AssetGraphNode) (node : AssetGraphNode) (st : BuilderState σ) e,
      visitChildrenF G visitF cs node st ≠ .fatal e := by
  intro cs
  induction cs with
  | nil => intro node st e h; simp only [visitChildrenF] at h; cases h
  | cons child rest ih =>
    intro node st e h
    simp only [visitChildrenF] at h
    split at h
    · revert h
      cases hv : visitF child { st with visited := child.id :: st.visited } with
      | ok s2 => intro h; exact ih _ _ _ h
      | fuelOut => intro h; cases h
      | fatal e' => intro h; exact hF _ _ _ hv
    · exact ih _ _ _ h

/-- A node whose type is one of the four requestable kinds always hits one of
the four non-default dispatch cases. -/
theorem queue_ok_of_mem {σ : Type} (node : AssetGraphNode) (st : BuilderState σ)
    (hmem : typesWithRequests.contains node.type = true) :
    ∃ st', queueCorrespondingRequest node st = .ok st' := by
  unfold queueCorrespondingRequest
  cases htype : node.type with
  | root => simp [typesWithRequests, htype] at hmem
  | asset => simp [typesWithRequests, htype] at hmem
  | entry_specifier => exact ⟨_, rfl⟩
  | entry_file => exact ⟨_, rfl⟩
  | dependency => exact ⟨_, rfl⟩
  | asset_group => exact ⟨_, rfl⟩

/-- `!shouldSkipRequest(node)` pins `node.type` to a requestable kind. -/
theorem contains_of_not_skip (api : RunAPI) (node : AssetGraphNode)
    (hskip : shouldSkipRequest api node = false) :
    typesWithRequests.contains node.type = true := by
  unfold shouldSkipRequest at hskip
  simp only [Bool.or_eq_false_iff, Bool.not_eq_false'] at hskip
  exact hskip.1.2

/-- `visit` never throws: the only throwing branch, `queueCorrespondingRequest`'s
`default`, is reached only under `!shouldSkipRequest`, which pins the node's
type to one of the four requestable kinds. -/
theorem visit_ne_fatal {σ : Type} (G : AssetGraphImpl σ) (api : RunAPI) :
    ∀ (fuel : Nat) (node : AssetGraphNode) (st : BuilderState σ) e,
      visit G api fuel node st ≠ .fatal e := by
  intro fuel
  induction fuel with
  | zero => intro node st e h; cases h
  | succ fuel ih =>
    intro node st e h
    simp only [visit] at h
    split at h
    · cases h
    · split at h
      · exact visitChildrenF_ne_fatal ih _ _ _ _ h
      · rename_i hskip
        have hmem := contains_of_not_skip api node (by
          cases hb : shouldSkipRequest api node
          · rfl
          · exact absurd hb hskip)
        obtain ⟨st', hok⟩ := queue_ok_of_mem node st hmem
        rw [hok] at h
        cases h

/-! ## Settlement lemmas -/

/-- Settlement appends the settled node to the ghost log and never touches
`visited` or `pending`. -/
theorem settle_shape {σ : Type} (G : AssetGraphImpl σ) (api : RunAPI)
    (node : AssetGraphNode) (st : BuilderState σ) :
    (settleNode G api node st).settled = st.settled ++ [node] ∧
    (settleNode G api node st).visited = st.visited ∧
    (settleNode G api node st).pending = st.pending := by
  unfold settleNode
  cases node.type
  · exact ⟨rfl, rfl, rfl⟩
  · cases api.runEntry node.value <;> exact ⟨rfl, rfl, rfl⟩
  · cases api.runTarget node.value <;> exact ⟨rfl, rfl, rfl⟩
  · cases api.runPath node.value <;> exact ⟨rfl, rfl, rfl⟩
  · rcases api.runAsset node.value with e | (_ | _) <;> exact ⟨rfl, rfl, rfl⟩
  · exact ⟨rfl, rfl, rfl⟩

/-- Settlement appends at most one error, in settlement order. -/
theorem settle_errors_ext {σ : Type} (G : AssetGraphImpl σ) (api : RunAPI)
    (node : AssetGraphNode) (st : BuilderState σ) :
    ∃ tail, (settleNode G api node st).errors = st.errors ++ tail ∧
      tail.length ≤ 1 := by
  unfold settleNode
  cases node.type
  · exact ⟨[], by simp⟩
  · cases api.runEntry node.value with
    | ok r => exact ⟨[], by simp⟩
    | error e => exact ⟨[e], by simp⟩
  · cases api.runTarget node.value with
    | ok r => exact ⟨[], by simp⟩
    | error e => exact ⟨[e], by simp⟩
  · cases api.runPath node.value with
    | ok r => exact ⟨[], by simp⟩
    | error e => exact ⟨[e], by simp⟩
  · rcases hr : api.runAsset node.value with e | (_ | _)
    · exact ⟨[e], by simp⟩
    · exact ⟨[], by simp⟩
    · exact ⟨[], by simp⟩
  · exact ⟨[], by simp⟩

/-- Settlement keeps a non-empty error list non-empty. -/
theorem settle_errors_ne {σ : Type} (G : AssetGraphImpl σ) (api : RunAPI)
    (node : AssetGraphNode) (st : BuilderState σ) (h : st.errors ≠ []) :
    (settleNode G api node st).errors ≠ [] := by
  obtain ⟨tail, htail, -⟩ := settle_errors_ext G api node st
  rw [htail]
  simp [h]

/-! ## JS `Map` lemmas -/

theorem find_overwrite (m : List (Nat × Asset)) (k : Nat) (v : Asset)
    (h : m.any (fun p => p.1 == k) = true) :
    (m.map (fun p => if p.1 == k then (k, v) else p)).find? (fun p => p.1 == k) =
      some (k, v) := by
  induction m with
  | nil => cases h
  | cons p m ih =>
    simp only [List.map_cons]
    by_cases hp : p.1 = k
    · have h1 : (if (p.1 == k) = true then ((k, v) : Nat × Asset) else p) = (k, v) := by
        simp [hp]
      rw [h1, List.find?_cons_of_pos _ (by simp)]
    · have h1 : (if (p.1 == k) = true then ((k, v) : Nat × Asset) else p) = p := by
        simp [hp]
      have hpf : (p.1 == k) = false := by simpa using hp
      have h' : m.any (fun p => p.1 == k) = true := by simpa [hpf] using h
      rw [h1, List.find?_cons_of_neg _ (by simp [hp])]
      exact ih h'

theorem find_overwrite_ne (m : List (Nat × Asset)) (k k' : Nat) (v : Asset)
    (hne : k' ≠ k) :
    (m.map (fun p => if p.1 == k then (k, v) else p)).find? (fun p => p.1 == k') =
      m.find? (fun p => p.1 == k') := by
  induction m with
  | nil => rfl
  | cons p m ih =>
    simp only [List.map_cons]
    by_cases hp : p.1 = k
    · have h1 : (if (p.1 == k) = true then ((k, v) : Nat × Asset) else p) = (k, v) := by
        simp [hp]
      rw [h1, List.find?_cons_of_neg _ (by simp [Ne.symm hne]),
        List.find?_cons_of_neg _ (by simp [hp, Ne.symm hne])]
      exact ih
    · have h1 : (if (p.1 == k) = true then ((k, v) : Nat × Asset) else p) = p := by
        simp [hp]
      rw [h1]
      by_cases hp' : p.1 = k'
      · rw [List.find?_cons_of_pos _ (by simp [hp']),
          List.find?_cons_of_pos _ (by simp [hp'])]
      · rw [List.find?_cons_of_neg _ (by simp [hp']),
          List.find?_cons_of_neg _ (by simp [hp'])]
        exact ih

theorem find_none_of_any_false (m : List (Nat × Asset)) (k : Nat)
    (h : m.any (fun p => p.1 == k) = false) :
    m.find? (fun p => p.1 == k) = none := by
  induction m with
  | nil => rfl
  | cons p m ih =>
    have hpf : (p.1 == k) = false := by
      cases hb : (p.1 == k)
      · rfl
      · simp [List.any_cons, hb] at h
    have h' : m.any (fun p => p.1 == k) = false := by simpa [hpf] using h
    rw [List.find?_cons_of_neg _ (by simp [hpf])]
    exact ih h'

theorem mapGet_mapSet_self (m : List (Nat × Asset)) (k : Nat) (v : Asset) :
    mapGet (mapSet m k v) k = some v := by
  unfold mapSet mapGet
  cases hm : m.any (fun p => p.1 == k) with
  | true => rw [if_pos rfl, find_overwrite m k v hm]; rfl
  | false =>
    rw [if_neg Bool.false_ne_true, List.find?_append, find_none_of_any_false m k hm]
    simp

theorem mapGet_mapSet_ne (m : List (Nat × Asset)) (k k' : Nat) (v : Asset)
    (hne : k' ≠ k) : mapGet (mapSet m k v) k' = mapGet m k' := by
  unfold mapSet mapGet
  cases hm : m.any (fun p => p.1 == k) with
  | true => rw [if_pos rfl, find_overwrite_ne m k k' v hne]
  | false =>
    rw [if_neg Bool.false_ne_true, List.find?_append]
    cases hf : m.find? (fun p => p.1 == k') with
    | none => simp [Ne.symm hne]
    | some q => simp

theorem mapGet_isSome_mapSet (m : List (Nat × Asset)) (k k' : Nat) (v : Asset)
    (h : (mapGet m k').isSome) : (mapGet (mapSet m k v) k').isSome := by
  by_cases hk : k' = k
  · subst hk; rw [mapGet_mapSet_self]; rfl
  · rw [mapGet_mapSet_ne m k k' v hk]; exact h

/-- Folding `Map.set` over a list of assets leaves every asset's id bound. -/
theorem mapGet_foldl_isSome (assets : List Asset) (m : List (Nat × Asset))
    (a : Asset) (ha : a ∈ assets) :
    (mapGet (assets.foldl (fun acc x => mapSet acc x.id x) m) a.id).isSome := by
  induction assets generalizing m with
  | nil => cases ha
  | cons b assets ih =>
    rcases List.mem_cons.mp ha with hab | ha'
    · subst hab
      simp only [List.foldl_cons]
      have hbase : (mapGet (mapSet m a.id a) a.id).isSome := by
        rw [mapGet_mapSet_self]; rfl
      clear ha ih
      generalize mapSet m a.id a = m0 at hbase
      induction assets generalizing m0 with
      | nil => simpa using hbase
      | cons c assets ih2 =>
        simp only [List.foldl_cons]
        exact ih2 _ (mapGet_isSome_mapSet _ _ _ _ hbase)
    · simp only [List.foldl_cons]
      exact ih _ ha'

theorem mapGet_foldl_of_not_mem (assets : List Asset) (m : List (Nat × Asset))
    (k : Nat) (h : ∀ x ∈ assets, x.id ≠ k) :
    mapGet (assets.foldl (fun acc x => mapSet acc x.id x) m) k = mapGet m k := by
  induction assets generalizing m with
  | nil => rfl
  | cons b assets ih =>
    simp only [List.foldl_cons]
    rw [ih _ (fun x hx => h x (List.mem_cons_of_mem b hx)),
      mapGet_mapSet_ne _ _ _ _ (fun he => h b (List.mem_cons_self b assets) he.symm)]

/-- With pairwise-distinct asset ids, each asset is bound to itself. -/
theorem mapGet_foldl_nodup (assets : List Asset) (m : List (Nat × Asset))
    (a : Asset) (ha : a ∈ assets) (hn : (assets.map Asset.id).Nodup) :
    mapGet (assets.foldl (fun acc x => mapSet acc x.id x) m) a.id = some a := by
  induction assets generalizing m with
  | nil => cases ha
  | cons b assets ih =>
    simp only [List.map_cons, List.nodup_cons] at hn
    rcases List.mem_cons.mp ha with hab | ha'
    · subst hab
      simp only [List.foldl_cons]
      rw [mapGet_foldl_of_not_mem assets _ a.id ?hne, mapGet_mapSet_self]
      intro x hx he
      exact hn.1 (he ▸ List.mem_map_of_mem Asset.id hx)
    · simp only [List.foldl_cons]
      exact ih _ ha' hn.2

/-! ## Claim theorems -/

/-- **C1** For every graph node, `shouldSkipRequest` returns `true` if and
only if the node's `complete` flag is set, or its kind is not one of the four
requestable kinds, or it has a `correspondingRequest` that the cache service
(`api.canSkipSubrequest`) reports as still valid; and, absent recorded
errors, `visit` dispatches a request for the node (appending it to the queue)
exactly when this predicate is `false`, otherwise going straight to
`visitChildren`. -/
theorem c1_skip_predicate {σ : Type} (G : AssetGraphImpl σ) (api : RunAPI)
    (node : AssetGraphNode) (fuel : Nat) (st : BuilderState σ)
    (hnoerr : st.errors = []) :
    (shouldSkipRequest api node = true ↔
      (node.complete = true ∨
       typesWithRequests.contains node.type = false ∨
       (∃ r, node.correspondingRequest = some r ∧ api.canSkipSubrequest r = true))) ∧
    (shouldSkipRequest api node = false →
      visit G api (fuel + 1) node st = queueCorrespondingRequest node st ∧
      ∃ st', queueCorrespondingRequest node st = .ok st' ∧
        st'.pending = st.pending ++ [node]) ∧
    (shouldSkipRequest api node = true →
      visit G api (fuel + 1) node st = visitChildren G api fuel node st) := by
  refine ⟨?_, ?_, ?_⟩
  · unfold shouldSkipRequest
    cases hc : node.correspondingRequest with
    | none => simp [hc, Bool.or_eq_true]
    | some r => simp [hc, Bool.or_eq_true, or_assoc]
  · intro hskip
    constructor
    · simp [visit, hnoerr, hskip]
    · obtain ⟨st', hok⟩ := queue_ok_of_mem node st (contains_of_not_skip api node hskip)
      exact ⟨st', hok, (queue_ok_shape node st st' hok).2.2.2.2.2.1⟩
  · intro hskip
    simp [visit, visitChildren, hnoerr, hskip]

/-- **C6** In the `visitChildren` loop, a child already in `visited` with no
pending deferral is skipped; otherwise the child is recursed into exactly when
the graph's gate `shouldVisitChild` allows it, and then its id is added to
`visited` before the recursive visit.  The loop ranges over the nodes
currently connected from the parent. -/
theorem c6_visit_children_gate {σ : Type} (G : AssetGraphImpl σ) (api : RunAPI)
    (visitF : AssetGraphNode → BuilderState σ → Step σ) (fuel : Nat)
    (child node : AssetGraphNode) (rest : List AssetGraphNode)
    (st : BuilderState σ) :
    (visitChildren G api fuel node st =
      visitChildrenF G (visit G api fuel)
        (G.getNodesConnectedFrom st.graph node) node st) ∧
    (st.visited.contains child.id = true → child.hasDeferred = false →
      visitChildrenF G visitF (child :: rest) node st =
        visitChildrenF G visitF rest node st) ∧
    ((st.visited.contains child.id = false ∨ child.hasDeferred = true) →
      G.shouldVisitChild st.graph node child = false →
      visitChildrenF G visitF (child :: rest) node st =
        visitChildrenF G visitF rest node st) ∧
    ((st.visited.contains child.id = false ∨ child.hasDeferred = true) →
      G.shouldVisitChild st.graph node child = true →
      visitChildrenF G visitF (child :: rest) node st =
        (match visitF child { st with visited := child.id :: st.visited } with
         | .ok st' => visitChildrenF G visitF rest node st'
         | r => r)) := by
  refine ⟨rfl, ?_, ?_, ?_⟩
  · intro hvis hdef
    have hcond : ((!(st.visited.contains child.id) || child.hasDeferred) &&
        G.shouldVisitChild st.graph node child) = false := by
      rw [hvis, hdef]
      rfl
    simp only [visitChildrenF, hcond, Bool.false_eq_true, if_false]
  · intro hor hgate
    have hcond : ((!(st.visited.contains child.id) || child.hasDeferred) &&
        G.shouldVisitChild st.graph node child) = false := by
      rw [hgate, Bool.and_false]
    simp only [visitChildrenF, hcond, Bool.false_eq_true, if_false]
  · intro hor hgate
    have hcond : ((!(st.visited.contains child.id) || child.hasDeferred) &&
        G.shouldVisitChild st.graph node child) = true := by
      rcases hor with hvis | hdef
      · rw [hvis, hgate]
        rfl
      · rw [hdef, hgate]
        simp
    simp only [visitChildrenF, hcond, if_true]

/-- **C7** For every dispatched `asset_group` node: its descriptor is appended
to `assetRequests` at dispatch, before the transform request runs (so it is
recorded even when the transform later fails); and when the transform
succeeds, each produced asset is recorded into `changedAssets` under its id
and the assets are folded into the graph via `resolveAssetGroup`. -/
theorem c7_asset_group_records {σ : Type} (G : AssetGraphImpl σ) (api : RunAPI)
    (node : AssetGraphNode) (st : BuilderState σ) (assets : List Asset)
    (htype : node.type = .asset_group) :
    (queueCorrespondingRequest node st = .ok { st with
        assetRequests := st.assetRequests ++ [node.value],
        pending := st.pending ++ [node] }) ∧
    (api.runAsset node.value = .ok (some assets) →
      settleNode G api node st = { st with
        settled := st.settled ++ [node],
        changedAssets := assets.foldl (fun m a => mapSet m a.id a) st.changedAssets,
        graph := G.resolveAssetGroup st.graph node.value assets
          (assetRequestId node.value) } ∧
      (∀ a ∈ assets,
        (mapGet (settleNode G api node st).changedAssets a.id).isSome = true) ∧
      ((assets.map Asset.id).Nodup → ∀ a ∈ assets,
        mapGet (settleNode G api node st).changedAssets a.id = some a)) := by
  constructor
  · unfold queueCorrespondingRequest
    rw [htype]
  · intro hrun
    have hset : settleNode G api node st = { st with
        settled := st.settled ++ [node],
        changedAssets := assets.foldl (fun m a => mapSet m a.id a) st.changedAssets,
        graph := G.resolveAssetGroup st.graph node.value assets
          (assetRequestId node.value) } := by
      unfold settleNode
      rw [htype, hrun]
    refine ⟨hset, ?_, ?_⟩
    · intro a ha
      rw [hset]
      exact mapGet_foldl_isSome assets st.changedAssets a ha
    · intro hn a ha
      rw [hset]
      exact mapGet_foldl_nodup assets st.changedAssets a ha hn

/-- **C8** When a dispatched node's subrequest rejects, its settlement only
records the error (appended to the error list, in settlement order) and logs
the settlement: no resolve operation runs, the graph is unchanged, and
`changedAssets` gains nothing, so the failed node stays incomplete; the error
is captured rather than propagated (settlement still yields a state). -/
theorem c8_rejection_isolated {σ : Type} (G : AssetGraphImpl σ) (api : RunAPI)
    (node : AssetGraphNode) (e : Nat) (st : BuilderState σ)
    (h : RequestRejects api node e) :
    settleNode G api node st =
      { st with settled := st.settled ++ [node], errors := st.errors ++ [e] } := by
  unfold RequestRejects at h
  unfold settleNode
  cases htype : node.type <;> simp only [htype] at h ⊢ <;> rw [h]

/-- **C9** Structural errors are fatal and immediate: a missing root makes
`build` throw at the start of the pass, before any traversal, dispatch or
commit (for every fuel, including zero, and every schedule); and any node
whose kind is outside the four-entry dispatch table makes
`queueCorrespondingRequest` throw the unknown-node-type error instead of
recording a recoverable one. -/
theorem c9_structural_fatal {σ : Type} (G : AssetGraphImpl σ) (api : RunAPI)
    (sched : Nat → Nat) (fuel name : Nat) (entries : List Nat) (g0 : σ)
    (node : AssetGraphNode) (st : BuilderState σ) :
    (G.getRootNode g0 = none →
      build G api sched fuel name entries g0 =
        ⟨some (.error .missingRoot), none⟩) ∧
    (typesWithRequests.contains node.type = false →
      queueCorrespondingRequest node st = .fatal (.inr node.type)) := by
  constructor
  · intro hroot
    unfold build buildTrace
    rw [hroot]
  · intro hmem
    unfold queueCorrespondingRequest
    cases htype : node.type
    · rfl
    · simp [typesWithRequests, htype] at hmem
    · simp [typesWithRequests, htype] at hmem
    · simp [typesWithRequests, htype] at hmem
    · simp [typesWithRequests, htype] at hmem
    · rfl

/-- The drain never throws: settlements don't throw, and the chained
`visitChildren` continuations never reach the dispatch `default` branch. -/
theorem drain_ne_fatal {σ : Type} (G : AssetGraphImpl σ) (api : RunAPI)
    (sched : Nat → Nat) :
    ∀ (fuel : Nat) (st : BuilderState σ) e, drain G api sched fuel st ≠ .fatal e := by
  intro fuel
  induction fuel with
  | zero =>
    intro st e h
    unfold drain at h
    split at h <;> cases h
  | succ fuel ih =>
    intro st e h
    simp only [drain] at h
    split at h
    · cases h
    · split at h
      · exact ih _ _ h
      · unfold visitChildren at h
        exact visitChildrenF_ne_fatal (visit_ne_fatal G api fuel) _ _ _ _ h

/-- **C10** The throwing `default` branch of the dispatch switch is
unreachable along `build`'s traversal: a node with `shouldSkipRequest` false
necessarily has one of the four requestable kinds, so its dispatch hits a
non-default case; consequently neither the traversal nor `build` ever
produces the unknown-node-type error. -/
theorem c10_dispatch_default_unreachable {σ : Type} (G : AssetGraphImpl σ)
    (api : RunAPI) :
    (∀ (node : AssetGraphNode) (st : BuilderState σ),
      shouldSkipRequest api node = false →
      typesWithRequests.contains node.type = true ∧
      ∃ st', queueCorrespondingRequest node st = .ok st') ∧
    (∀ (sched : Nat → Nat) (fuel : Nat) (g0 : σ) (t : NodeType),
      buildTrace G api sched fuel g0 ≠ .fatal (.inr t)) ∧
    (∀ (sched : Nat → Nat) (fuel name : Nat) (entries : List Nat) (g0 : σ)
      (t : NodeType),
      (build G api sched fuel name entries g0).result ≠
        some (.error (.badNodeType t))) := by
  have htrace : ∀ (sched : Nat → Nat) (fuel : Nat) (g0 : σ) (t : NodeType),
      buildTrace G api sched fuel g0 ≠ .fatal (.inr t) := by
    intro sched fuel g0 t h
    unfold buildTrace at h
    split at h
    · simp at h
    · split at h
      · exact drain_ne_fatal G api sched _ _ _ h
      · exact visit_ne_fatal G api _ _ _ _ h
  refine ⟨?_, htrace, ?_⟩
  · intro node st hskip
    have hmem := contains_of_not_skip api node hskip
    exact ⟨hmem, queue_ok_of_mem node st hmem⟩
  · intro sched fuel name entries g0 t h
    unfold build at h
    split at h
    · cases h
    · cases h
    · rename_i heq
      cases h
      exact htrace sched fuel g0 _ heq
    · split at h <;> cases h

/-- **C5** On every pass whose queue drains (successful or failing), `build`
commits under the pass's cache key a result made of the final graph together
with an empty `changedAssets` map and an empty `assetRequests` list — never
the accumulated ones — while on success the value returned to the caller
carries the actually accumulated `changedAssets` and `assetRequests`. -/
theorem c5_asymmetric_commit {σ : Type} (G : AssetGraphImpl σ) (api : RunAPI)
    (sched : Nat → Nat) (fuel name : Nat) (entries : List Nat) (g0 : σ)
    (st2 : BuilderState σ) (htrace : buildTrace G api sched fuel g0 = .ok st2) :
    (build G api sched fuel name entries g0).stored =
      some ⟨st2.graph, [], [], mkCacheKey name entries⟩ ∧
    (st2.errors = [] →
      (build G api sched fuel name entries g0).result =
        some (.ok ⟨st2.graph, st2.changedAssets, st2.assetRequests⟩)) ∧
    (∀ e rest, st2.errors = e :: rest →
      (build G api sched fuel name entries g0).result =
        some (.error (.sub e))) := by
  refine ⟨?_, ?_, ?_⟩
  · cases he : st2.errors <;> simp only [build, htrace, he]
  · intro he
    simp only [build, htrace, he]
  · intro e rest he
    simp only [build, htrace, he]

/-- **C3** After the queue drains, if any error was recorded `build` throws
exactly the first recorded error and every later one is dropped; with no
recorded error it returns the accumulated result.  Errors are appended at
settlement, at most one per settlement, and the traversal itself records
none, so the head of the list is the first error in queue-settlement order. -/
theorem c3_first_error_thrown {σ : Type} (G : AssetGraphImpl σ) (api : RunAPI)
    (sched : Nat → Nat) (fuel name : Nat) (entries : List Nat) (g0 : σ)
    (st2 : BuilderState σ) (htrace : buildTrace G api sched fuel g0 = .ok st2) :
    (∀ e rest, st2.errors = e :: rest →
      (build G api sched fuel name entries g0).result =
        some (.error (.sub e))) ∧
    (st2.errors = [] →
      (build G api sched fuel name entries g0).result =
        some (.ok ⟨st2.graph, st2.changedAssets, st2.assetRequests⟩)) ∧
    (∀ (node : AssetGraphNode) (st : BuilderState σ),
      ∃ tail, (settleNode G api node st).errors = st.errors ++ tail ∧
        tail.length ≤ 1) ∧
    (∀ (fuel' : Nat) (node : AssetGraphNode) (st st' : BuilderState σ),
      visit G api fuel' node st = .ok st' → st'.errors = st.errors) := by
  refine ⟨?_, ?_, fun node st => settle_errors_ext G api node st,
    fun fuel' node st st' h => visit_errors_eq G api fuel' node st st' h⟩
  · intro e rest he
    simp only [build, htrace, he]
  · intro he
    simp only [build, htrace, he]

/-- One step of the drain on a non-empty queue: pick, settle, then run the
chained `visitChildren`. -/
theorem drain_succ_cons {σ : Type} (G : AssetGraphImpl σ) (api : RunAPI)
    (sched : Nat → Nat) (fuel : Nat) (st : BuilderState σ)
    (p : AssetGraphNode) (ps : List AssetGraphNode) (hp : st.pending = p :: ps) :
    drain G api sched (fuel + 1) st =
      (match visitChildren G api fuel
          ((p :: ps).getD (sched fuel % (p :: ps).length) p)
          (settleNode G api ((p :: ps).getD (sched fuel % (p :: ps).length) p)
            { st with pending := (p :: ps).eraseIdx (sched fuel % (p :: ps).length) }) with
       | .ok st3 => drain G api sched fuel st3
       | r => r) := by
  simp only [drain, hp]

theorem mem_eraseIdx_or_getD {α : Type} (l : List α) (i : Nat) (a d : α)
    (h : a ∈ l) : a ∈ l.eraseIdx i ∨ a = l.getD i d := by
  induction l generalizing i with
  | nil => cases h
  | cons b t ih =>
    cases i with
    | zero =>
      rcases List.mem_cons.mp h with rfl | ht
      · right; rfl
      · left; simpa [List.eraseIdx] using ht
    | succ j =>
      rcases List.mem_cons.mp h with rfl | ht
      · left; simp [List.eraseIdx]
      · rcases ih j ht with h1 | h1
        · left; simp [List.eraseIdx, h1]
        · right; simpa [List.getD] using h1

theorem length_eraseIdx_add_one {α : Type} (l : List α) (i : Nat)
    (h : i < l.length) : (l.eraseIdx i).length + 1 = l.length := by
  induction l generalizing i with
  | nil => cases h
  | cons b t ih =>
    cases i with
    | zero => simp [List.eraseIdx]
    | succ j =>
      simp only [List.eraseIdx, List.length_cons]
      rw [ih j (by simpa using h)]

/-- **C4** From the moment the error list becomes non-empty, `visit`
schedules no new work for any node — it returns its state unchanged, neither
dispatching a request nor visiting children — while every item already
submitted to the queue still settles and is never cancelled: with enough
fuel the drain completes with an empty queue and each formerly pending
request appears in the settlement log. -/
theorem c4_error_stops_scheduling {σ : Type} (G : AssetGraphImpl σ)
    (api : RunAPI) (sched : Nat → Nat) :
    (∀ (fuel : Nat) (node : AssetGraphNode) (st : BuilderState σ),
      st.errors ≠ [] → visit G api (fuel + 1) node st = .ok st) ∧
    (∀ (fuel : Nat) (st : BuilderState σ), st.errors ≠ [] →
      st.pending.length + 1 ≤ fuel →
      ∃ st', drain G api sched fuel st = .ok st' ∧ st'.pending = [] ∧
        (∀ q, q ∈ st.pending ∨ q ∈ st.settled → q ∈ st'.settled)) := by
  constructor
  · exact fun fuel node st he => visit_noop_of_errors G api fuel node st he
  · intro fuel
    induction fuel with
    | zero =>
      intro st he hlen
      omega
    | succ fuel ih =>
      intro st he hlen
      cases hp : st.pending with
      | nil =>
        refine ⟨st, ?_, hp, ?_⟩
        · simp only [drain, hp]
        · intro q hq
          rcases hq with hq | hq
          · simp at hq
          · exact hq
      | cons p ps =>
        have hfuel1 : 1 ≤ fuel := by
          rw [hp] at hlen
          simp only [List.length_cons] at hlen
          omega
        obtain ⟨fuel', rfl⟩ : ∃ f', fuel = f' + 1 := ⟨fuel - 1, by omega⟩
        set i := sched (fuel' + 1) % (p :: ps).length with hidef
        set node := (p :: ps).getD i p with hnode
        set st1 : BuilderState σ :=
          { st with pending := (p :: ps).eraseIdx i } with hst1
        set st2 := settleNode G api node st1 with hst2
        have hi : i < (p :: ps).length := Nat.mod_lt _ (by simp)
        have he2 : st2.errors ≠ [] := settle_errors_ne G api node st1 he
        obtain ⟨v, hv⟩ := visitChildrenF_noop_of_errors
          (fun c s hs => visit_noop_of_errors G api fuel' c s hs)
          (G.getNodesConnectedFrom st2.graph node) node st2 he2
        have hstep : drain G api sched (fuel' + 1 + 1) st =
            drain G api sched (fuel' + 1) { st2 with visited := v } := by
          rw [drain_succ_cons G api sched (fuel' + 1) st p ps hp]
          unfold visitChildren
          rw [← hidef, ← hnode, ← hst1, ← hst2, hv]
        have hsh := settle_shape G api node st1
        have hp2 : st2.pending = (p :: ps).eraseIdx i := by
          rw [hsh.2.2]
        have hlen2 : ({ st2 with visited := v } : BuilderState σ).pending.length + 1
            ≤ fuel' + 1 := by
          have := length_eraseIdx_add_one (p :: ps) i hi
          rw [hp] at hlen
          simp only [hp2, List.length_cons] at *
          omega
        obtain ⟨st', hdrain, hpend, hsett⟩ :=
          ih { st2 with visited := v } he2 hlen2
        refine ⟨st', by rw [hstep]; exact hdrain, hpend, ?_⟩
        intro q hq
        have hq2 : q ∈ st2.pending ∨ q ∈ st2.settled := by
          rcases hq with hq | hq
          · rcases mem_eraseIdx_or_getD (p :: ps) i q p hq with h1 | h1
            · left; rw [hp2]; exact h1
            · right
              rw [hsh.1, hst1]
              simp [h1, hnode]
          · right
            rw [hsh.1]
            exact List.mem_append_left _ hq
        exact hsett q hq2

/-! ## Witnesses -/

/-- Witness for C1: a dispatchable dependency node is not skipped, and its
visit is exactly the dispatch. -/
theorem c1_skip_predicate_witness :
    shouldSkipRequest demoApiFail depNode1 = false ∧
    visit demoGraph demoApiFail 6 depNode1 emptyState =
      queueCorrespondingRequest depNode1 emptyState := by
  refine ⟨by decide, ?_⟩
  exact ((c1_skip_predicate demoGraph demoApiFail depNode1 5 emptyState
    rfl).2.1 (by decide)).1

/-- Witness for C3: the failing demo pass throws the first settled error, 55,
dropping 66. -/
theorem c3_first_error_thrown_witness :
    (build demoGraph demoApiFail fifo 10 0 [] ()).result =
      some (.error (.sub 55)) :=
  (c3_first_error_thrown demoGraph demoApiFail fifo 10 0 [] () failedPassState
    (by decide)).1 55 [66] (by decide)

/-- Witness for C4: with an error recorded, visiting is a no-op and the
pending request still settles. -/
theorem c4_error_stops_scheduling_witness :
    visit demoGraph demoApiFail 4 depNode1 erroredState = .ok erroredState ∧
    ∃ st', drain demoGraph demoApiFail fifo 2 erroredState = .ok st' ∧
      st'.pending = [] ∧
      (∀ q, q ∈ erroredState.pending ∨ q ∈ erroredState.settled →
        q ∈ st'.settled) := by
  refine ⟨?_, ?_⟩
  · exact (c4_error_stops_scheduling demoGraph demoApiFail fifo).1 3 depNode1
      erroredState (by decide)
  · exact (c4_error_stops_scheduling demoGraph demoApiFail fifo).2 2
      erroredState (by decide) (by decide)

/-- Witness for C5: the successful demo pass stores empty accumulators under
the cache key while returning the accumulated asset and work item. -/
theorem c5_asymmetric_commit_witness :
    (build demoGraph demoApiOk fifo 10 1 [2] ()).stored =
      some ⟨(), [], [], mkCacheKey 1 [2]⟩ ∧
    (build demoGraph demoApiOk fifo 10 1 [2] ()).result =
      some (.ok ⟨(), [(100, ⟨100, 3⟩)], [7]⟩) := by
  have h := c5_asymmetric_commit demoGraph demoApiOk fifo 10 1 [2] ()
    okPassState (by decide)
  exact ⟨h.1, h.2.1 (by decide)⟩

/-- Witness for C6: an already-visited, non-deferred child is skipped by the
loop. -/
theorem c6_visit_children_gate_witness :
    visitChildrenF demoGraph (visit demoGraph demoApiFail 3) [depNode1] rootNode
      { emptyState with visited := [depNode1.id] } =
    visitChildrenF demoGraph (visit demoGraph demoApiFail 3) [] rootNode
      { emptyState with visited := [depNode1.id] } :=
  (c6_visit_children_gate demoGraph demoApiFail (visit demoGraph demoApiFail 3)
    3 depNode1 rootNode [] { emptyState with visited := [depNode1.id] }).2.1
    (by decide) (by decide)

/-- Witness for C7: the asset-group descriptor is queued into `assetRequests`
at dispatch, and the produced asset is recorded under its id at settlement. -/
theorem c7_asset_group_records_witness :
    queueCorrespondingRequest agNode emptyState = .ok { emptyState with
      assetRequests := emptyState.assetRequests ++ [agNode.value],
      pending := emptyState.pending ++ [agNode] } ∧
    mapGet (settleNode demoGraph demoApiFail agNode emptyState).changedAssets
      100 = some ⟨100, 3⟩ := by
  refine ⟨(c7_asset_group_records demoGraph demoApiFail agNode emptyState
    [⟨100, 3⟩] rfl).1, ?_⟩
  have h := (c7_asset_group_records demoGraph demoApiFail agNode emptyState
    [⟨100, 3⟩] rfl).2 rfl
  exact h.2.2 (by decide) ⟨100, 3⟩ (by decide)

/-- Witness for C8: the rejected path request for `depNode1` only records
error 55 and the settlement. -/
theorem c8_rejection_isolated_witness :
    settleNode demoGraph demoApiFail depNode1 emptyState =
      { emptyState with
        settled := emptyState.settled ++ [depNode1],
        errors := emptyState.errors ++ [55] } :=
  c8_rejection_isolated demoGraph demoApiFail depNode1 55 emptyState rfl

/-- Witness for C9: a rootless graph makes `build` throw immediately, and a
plain asset node reaching dispatch throws the unknown-node-type error. -/
theorem c9_structural_fatal_witness :
    build noRootGraph demoApiFail fifo 0 0 [] () =
      ⟨some (.error .missingRoot), none⟩ ∧
    queueCorrespondingRequest assetNode emptyState =
      .fatal (.inr assetNode.type) := by
  refine ⟨?_, ?_⟩
  · exact (c9_structural_fatal noRootGraph demoApiFail fifo 0 0 [] ()
      assetNode emptyState).1 rfl
  · exact (c9_structural_fatal noRootGraph demoApiFail fifo 0 0 [] ()
      assetNode emptyState).2 (by decide)

/-- Witness for C10: an unskipped dependency node has a requestable kind and
dispatches through a non-default case. -/
theorem c10_dispatch_default_unreachable_witness :
    typesWithRequests.contains depNode2.type = true ∧
    ∃ st', queueCorrespondingRequest depNode2 emptyState = .ok st' :=
  (c10_dispatch_default_unreachable demoGraph demoApiFail).1 depNode2
    emptyState (by decide)

/-! ## C2: divergence on a deferred cycle -/

/-- On the deferred self-loop, `visit` exhausts any fuel: the
`child.hasDeferred` bypass re-enters the already-visited node forever. -/
theorem loop_visit_fuelOut :
    ∀ (fuel : Nat) (st : BuilderState Unit), st.errors = [] →
      visit loopGraph demoApiOk fuel loopNode st = .fuelOut := by
  intro fuel
  induction fuel with
  | zero => intro st h; rfl
  | succ fuel ih =>
    intro st h
    have hskip : shouldSkipRequest demoApiOk loopNode = true := by decide
    have hch : loopGraph.getNodesConnectedFrom st.graph loopNode = [loopNode] := rfl
    have hcond : ((!(st.visited.contains loopNode.id) || loopNode.hasDeferred) &&
        loopGraph.shouldVisitChild st.graph loopNode loopNode) = true := by
      have hdef : loopNode.hasDeferred = true := rfl
      have hgate : loopGraph.shouldVisitChild st.graph loopNode loopNode = true := rfl
      rw [hdef, hgate, Bool.or_true, Bool.and_true]
    simp only [visit, h, ne_eq, not_true_eq_false, if_false, hskip, if_true, hch,
      visitChildrenF, hcond]
    rw [ih _ rfl]

/-- **C2 (counterexample)** The claim fails as stated: on a graph consisting
of a single `hasDeferred` node in a gate-allowed self-loop, the traversal of
`build` does not terminate for any fuel — the `child.hasDeferred` bypass in
`visitChildren` defeats the visited-set check and re-enters the cycle
forever. -/
theorem c2_termination_counterexample :
    ¬ TraversalTerminates loopGraph demoApiOk fifo () := by
  rintro ⟨fuel, hfuel⟩
  apply hfuel
  have hroot : loopGraph.getRootNode () = some loopNode := rfl
  simp only [buildTrace, hroot]
  rw [loop_visit_fuelOut fuel _ rfl]

/-! ## C2: termination with bounded, deferral-free children -/

theorem filter_notmem_cons_card (S : Finset Nat) (c : Nat) (l : List Nat)
    (hS : c ∈ S) (hl : c ∉ l) :
    (S.filter (fun x => x ∉ c :: l)).card + 1 =
      (S.filter (fun x => x ∉ l)).card := by
  have he : S.filter (fun x => x ∉ c :: l) =
      (S.filter (fun x => x ∉ l)).erase c := by
    ext x
    simp only [Finset.mem_filter, Finset.mem_erase, List.mem_cons]
    tauto
  rw [he, Finset.card_erase_of_mem (Finset.mem_filter.mpr ⟨hS, hl⟩)]
  have hpos : 0 < (S.filter (fun x => x ∉ l)).card :=
    Finset.card_pos.mpr ⟨c, Finset.mem_filter.mpr ⟨hS, hl⟩⟩
  omega

theorem unvisitedCard_mono {σ : Type} (S : Finset Nat) (a b : BuilderState σ)
    (h : ∀ x ∈ a.visited, x ∈ b.visited) :
    unvisitedCard S b ≤ unvisitedCard S a := by
  unfold unvisitedCard
  apply Finset.card_le_card
  intro x hx
  simp only [Finset.mem_filter] at hx ⊢
  exact ⟨hx.1, fun hmem => hx.2 (h x hmem)⟩

theorem visitChildrenF_fuel_bound {σ : Type} (G : AssetGraphImpl σ)
    (api : RunAPI) (S : Finset Nat) (fuel : Nat)
    (IH : ∀ (node : AssetGraphNode) (st : BuilderState σ),
      unvisitedCard S st < fuel →
      visit G api fuel node st ≠ .fuelOut ∧
      (∀ st', visit G api fuel node st = .ok st' →
        st'.pending.length + unvisitedCard S st' ≤
          st.pending.length + unvisitedCard S st + 1)) :
    ∀ (cs : List AssetGraphNode) (node : AssetGraphNode) (st : BuilderState σ),
      (∀ c ∈ cs, c.hasDeferred = false ∧ c.id ∈ S) →
      unvisitedCard S st ≤ fuel →
      visitChildrenF G (visit G api fuel) cs node st ≠ .fuelOut ∧
      (∀ st', visitChildrenF G (visit G api fuel) cs node st = .ok st' →
        st'.pending.length + unvisitedCard S st' ≤
          st.pending.length + unvisitedCard S st) := by
  intro cs
  induction cs with
  | nil =>
    intro node st hcs hcard
    constructor
    · intro h
      cases h
    · intro st' h
      cases h
      omega
  | cons c rest ihl =>
    intro node st hcs hcard
    obtain ⟨hcdef, hcS⟩ := hcs c (List.mem_cons_self c rest)
    have hrest : ∀ x ∈ rest, x.hasDeferred = false ∧ x.id ∈ S :=
      fun x hx => hcs x (List.mem_cons_of_mem c hx)
    by_cases hcond : ((!(st.visited.contains c.id) || c.hasDeferred) &&
        G.shouldVisitChild st.graph node c) = true
    · have hnotvis : c.id ∉ st.visited := by
        have h1 := hcond
        rw [Bool.and_eq_true] at h1
        have h2 := h1.1
        rw [hcdef, Bool.or_false, Bool.not_eq_true'] at h2
        simpa using h2
      have hins : unvisitedCard S
            ({ st with visited := c.id :: st.visited } : BuilderState σ) + 1 =
          unvisitedCard S st :=
        filter_notmem_cons_card S c.id st.visited hcS hnotvis
      have hlt : unvisitedCard S
          ({ st with visited := c.id :: st.visited } : BuilderState σ) < fuel := by
        omega
      obtain ⟨hne, hbound⟩ := IH c { st with visited := c.id :: st.visited } hlt
      simp only [visitChildrenF, hcond, if_true]
      cases hv : visit G api fuel c { st with visited := c.id :: st.visited } with
      | fuelOut => exact absurd hv hne
      | fatal e =>
        constructor
        · intro h
          cases h
        · intro st' h
          cases h
      | ok st2 =>
        have hmono := visit_visited_mono G api fuel c
          { st with visited := c.id :: st.visited } st2 hv
        have hcard2 : unvisitedCard S st2 ≤
            unvisitedCard S ({ st with visited := c.id :: st.visited } : BuilderState σ) :=
          unvisitedCard_mono S _ _ hmono
        have hb2 := hbound st2 hv
        have hrec := ihl node st2 hrest (by omega)
        refine ⟨hrec.1, ?_⟩
        intro st' h
        have hb3 := hrec.2 st' h
        have hp1 : ({ st with visited := c.id :: st.visited } :
            BuilderState σ).pending.length = st.pending.length := rfl
        omega
    · have hcondf : ((!(st.visited.contains c.id) || c.hasDeferred) &&
          G.shouldVisitChild st.graph node c) = false := by
        cases hb : ((!(st.visited.contains c.id) || c.hasDeferred) &&
            G.shouldVisitChild st.graph node c)
        · rfl
        · exact absurd hb hcond
      simp only [visitChildrenF, hcondf, Bool.false_eq_true, if_false]
      exact ihl node st hrest hcard

theorem visit_fuel_bound {σ : Type} (G : AssetGraphImpl σ) (api : RunAPI)
    (S : Finset Nat) (HD : NoDeferredChildren G) (HS : IdsBounded G S) :
    ∀ (fuel : Nat) (node : AssetGraphNode) (st : BuilderState σ),
      unvisitedCard S st < fuel →
      visit G api fuel node st ≠ .fuelOut ∧
      (∀ st', visit G api fuel node st = .ok st' →
        st'.pending.length + unvisitedCard S st' ≤
          st.pending.length + unvisitedCard S st + 1) := by
  intro fuel
  induction fuel with
  | zero =>
    intro node st h
    exact absurd h (by omega)
  | succ fuel ih =>
    intro node st hcard
    by_cases herr : st.errors ≠ []
    · constructor
      · intro h
        rw [visit_noop_of_errors G api fuel node st herr] at h
        cases h
      · intro st' h
        rw [visit_noop_of_errors G api fuel node st herr] at h
        cases h
        omega
    · by_cases hskip : shouldSkipRequest api node = true
      · have heq : visit G api (fuel + 1) node st =
            visitChildrenF G (visit G api fuel)
              (G.getNodesConnectedFrom st.graph node) node st := by
          simp [visit, herr, hskip]
        rw [heq]
        have hcs : ∀ c ∈ G.getNodesConnectedFrom st.graph node,
            c.hasDeferred = false ∧ c.id ∈ S :=
          fun c hc => ⟨HD _ _ _ hc, HS _ _ _ hc⟩
        have := visitChildrenF_fuel_bound G api S fuel ih _ node st hcs (by omega)
        exact ⟨this.1, fun st' h => le_trans (this.2 st' h) (by omega)⟩
      · have hskipf : shouldSkipRequest api node = false := by
          cases hb : shouldSkipRequest api node
          · rfl
          · exact absurd hb hskip
        have heq : visit G api (fuel + 1) node st =
            queueCorrespondingRequest node st := by
          simp [visit, herr, hskipf]
        rw [heq]
        obtain ⟨st'', hok⟩ := queue_ok_of_mem node st
          (contains_of_not_skip api node hskipf)
        constructor
        · intro h
          rw [hok] at h
          cases h
        · intro st' h
          rw [hok] at h
          cases h
          have hsh := queue_ok_shape node st st'' hok
          have hc : unvisitedCard S st'' = unvisitedCard S st := by
            unfold unvisitedCard
            rw [hsh.2.1]
          rw [hsh.2.2.2.2.2.1, hc]
          simp only [List.length_append, List.length_cons, List.length_nil]
          omega

theorem drain_fuel_bound {σ : Type} (G : AssetGraphImpl σ) (api : RunAPI)
    (sched : Nat → Nat) (S : Finset Nat)
    (HD : NoDeferredChildren G) (HS : IdsBounded G S) :
    ∀ (fuel : Nat) (st : BuilderState σ),
      st.pending.length + unvisitedCard S st < fuel →
      drain G api sched fuel st ≠ .fuelOut := by
  intro fuel
  induction fuel with
  | zero =>
    intro st h
    exact absurd h (by omega)
  | succ fuel ih =>
    intro st hm h
    cases hp : st.pending with
    | nil =>
      simp only [drain, hp] at h
      cases h
    | cons p ps =>
      rw [drain_succ_cons G api sched fuel st p ps hp] at h
      revert h
      unfold visitChildren
      generalize hnodeeq : (p :: ps).getD (sched fuel % (p :: ps).length) p = node
      set st1 : BuilderState σ :=
        { st with pending := (p :: ps).eraseIdx (sched fuel % (p :: ps).length) }
        with hst1
      set st2 := settleNode G api node st1 with hst2
      have hv2 : st2.visited = st.visited := by
        rw [hst2, (settle_shape G api node st1).2.1]
      have hc2 : unvisitedCard S st2 = unvisitedCard S st := by
        unfold unvisitedCard
        rw [hv2]
      have hp2 : st2.pending = (p :: ps).eraseIdx (sched fuel % (p :: ps).length) := by
        rw [hst2, (settle_shape G api node st1).2.2]
      have hi : sched fuel % (p :: ps).length < (p :: ps).length :=
        Nat.mod_lt _ (by simp)
      have hl2 : st2.pending.length + 1 = ps.length + 1 := by
        rw [hp2]
        exact length_eraseIdx_add_one _ _ hi
      have hm' : ps.length + 1 + unvisitedCard S st < fuel + 1 := by
        rw [hp] at hm
        simpa using hm
      have hcard2 : unvisitedCard S st2 ≤ fuel := by omega
      have hcs : ∀ c ∈ G.getNodesConnectedFrom st2.graph node,
          c.hasDeferred = false ∧ c.id ∈ S :=
        fun c hc => ⟨HD _ _ _ hc, HS _ _ _ hc⟩
      have hvcb := visitChildrenF_fuel_bound G api S fuel
        (visit_fuel_bound G api S HD HS fuel) _ node st2 hcs hcard2
      cases hvc : visitChildrenF G (visit G api fuel)
          (G.getNodesConnectedFrom st2.graph node) node st2 with
      | fuelOut =>
        intro _
        exact hvcb.1 hvc
      | fatal e =>
        intro h
        cases h
      | ok st3 =>
        intro h
        have hb := hvcb.2 st3 hvc
        exact ih st3 (by omega) h

theorem buildTrace_terminates_of_bounded {σ : Type} (G : AssetGraphImpl σ)
    (api : RunAPI) (sched : Nat → Nat) (S : Finset Nat)
    (HD : NoDeferredChildren G) (HS : IdsBounded G S) (g0 : σ) :
    buildTrace G api sched (S.card + 2) g0 ≠ .fuelOut := by
  intro h
  unfold buildTrace at h
  split at h
  · cases h
  · rename_i root hroot
    revert h
    set st0 : BuilderState σ := ⟨g0, [root.id], [], [], [], [], []⟩ with hst0
    have hcard0 : unvisitedCard S st0 ≤ S.card := Finset.card_filter_le _ _
    have hv := visit_fuel_bound G api S HD HS (S.card + 2) root st0 (by omega)
    cases hvis : visit G api (S.card + 2) root st0 with
    | fuelOut =>
      intro _
      exact hv.1 hvis
    | fatal e =>
      intro h
      cases h
    | ok st1 =>
      intro h
      have hb := hv.2 st1 hvis
      have hp0 : st0.pending.length = 0 := rfl
      exact drain_fuel_bound G api sched S HD HS (S.card + 2) st1 (by omega) h

/-! ## C2: exploration of the gate-reachable set -/

theorem getD_mem {α : Type} (l : List α) (i : Nat) (d : α) (h : i < l.length) :
    l.getD i d ∈ l := by
  induction l generalizing i with
  | nil => simp at h
  | cons b t ih =>
    cases i with
    | zero => simp
    | succ j =>
      simp only [List.getD_cons_succ]
      exact List.mem_cons_of_mem b (ih j (by simpa using h))

theorem visitChildrenF_visited_mono {σ : Type} (G : AssetGraphImpl σ)
    (api : RunAPI) (fuel : Nat) (cs : List AssetGraphNode)
    (node : AssetGraphNode) (st st' : BuilderState σ)
    (h : visitChildrenF G (visit G api fuel) cs node st = .ok st') :
    ∀ x ∈ st.visited, x ∈ st'.visited :=
  visitChildrenF_rel (fun a b => ∀ x ∈ a.visited, x ∈ b.visited)
    (fun _ _ hx => hx) (fun _ _ _ h1 h2 x hx => h2 x (h1 x hx))
    (fun _ _ x hx => by simp [hx])
    (fun c s s' hv => visit_visited_mono G api fuel c s s' hv) cs node st st' h

theorem visitChildrenF_errors_eq {σ : Type} (G : AssetGraphImpl σ)
    (api : RunAPI) (fuel : Nat) (cs : List AssetGraphNode)
    (node : AssetGraphNode) (st st' : BuilderState σ)
    (h : visitChildrenF G (visit G api fuel) cs node st = .ok st') :
    st'.errors = st.errors :=
  visitChildrenF_rel (fun a b => b.errors = a.errors)
    (fun _ => rfl) (fun _ _ _ h1 h2 => h2.trans h1) (fun _ _ => rfl)
    (fun c s s' hv => visit_errors_eq G api fuel c s s' hv) cs node st st' h

theorem drain_errors_ext {σ : Type} (G : AssetGraphImpl σ) (api : RunAPI)
    (sched : Nat → Nat) :
    ∀ (fuel : Nat) (st st' : BuilderState σ),
      drain G api sched fuel st = .ok st' →
      ∃ t, st'.errors = st.errors ++ t := by
  intro fuel
  induction fuel with
  | zero =>
    intro st st' h
    unfold drain at h
    split at h
    · cases h
      exact ⟨[], by simp⟩
    · cases h
  | succ fuel ih =>
    intro st st' h
    cases hp : st.pending with
    | nil =>
      simp only [drain, hp] at h
      cases h
      exact ⟨[], by simp⟩
    | cons p ps =>
      rw [drain_succ_cons G api sched fuel st p ps hp] at h
      revert h
      unfold visitChildren
      generalize hnode : (p :: ps).getD (sched fuel % (p :: ps).length) p = node
      set st1 : BuilderState σ :=
        { st with pending := (p :: ps).eraseIdx (sched fuel % (p :: ps).length) }
        with hst1
      set st2 := settleNode G api node st1 with hst2
      intro h
      cases hvc : visitChildrenF G (visit G api fuel)
          (G.getNodesConnectedFrom st2.graph node) node st2 with
      | fuelOut => rw [hvc] at h; cases h
      | fatal e => rw [hvc] at h; cases h
      | ok st3 =>
        rw [hvc] at h
        obtain ⟨t1, ht1, -⟩ := settle_errors_ext G api node st1
        have ht2 : st3.errors = st2.errors :=
          visitChildrenF_errors_eq G api fuel _ node st2 st3 hvc
        obtain ⟨t3, ht3⟩ := ih st3 st' h
        refine ⟨t1 ++ t3, ?_⟩
        rw [ht3, ht2, hst2, ht1]
        simp [hst1]

theorem drain_visited_mono {σ : Type} (G : AssetGraphImpl σ) (api : RunAPI)
    (sched : Nat → Nat) :
    ∀ (fuel : Nat) (st st' : BuilderState σ),
      drain G api sched fuel st = .ok st' →
      ∀ x ∈ st.visited, x ∈ st'.visited := by
  intro fuel
  induction fuel with
  | zero =>
    intro st st' h
    unfold drain at h
    split at h
    · cases h
      exact fun x hx => hx
    · cases h
  | succ fuel ih =>
    intro st st' h
    cases hp : st.pending with
    | nil =>
      simp only [drain, hp] at h
      cases h
      exact fun x hx => hx
    | cons p ps =>
      rw [drain_succ_cons G api sched fuel st p ps hp] at h
      revert h
      unfold visitChildren
      generalize hnode : (p :: ps).getD (sched fuel % (p :: ps).length) p = node
      set st1 : BuilderState σ :=
        { st with pending := (p :: ps).eraseIdx (sched fuel % (p :: ps).length) }
        with hst1
      set st2 := settleNode G api node st1 with hst2
      intro h
      cases hvc : visitChildrenF G (visit G api fuel)
          (G.getNodesConnectedFrom st2.graph node) node st2 with
      | fuelOut => rw [hvc] at h; cases h
      | fatal e => rw [hvc] at h; cases h
      | ok st3 =>
        rw [hvc] at h
        intro x hx
        have hx2 : x ∈ st2.visited := by
          rw [hst2, (settle_shape G api node st1).2.1]
          exact hx
        exact ih st3 st' h x
          (visitChildrenF_visited_mono G api fuel _ node st2 st3 hvc x hx2)

theorem visitChildrenF_reach_inv {σ : Type} (G : AssetGraphImpl σ)
    (api : RunAPI) (children : AssetGraphNode → List AssetGraphNode)
    (gate : AssetGraphNode → AssetGraphNode → Bool) (root : AssetGraphNode)
    (Hst : StaticStructure G children gate) (HD : NoDeferredChildren G)
    (fuel : Nat)
    (IH : ∀ (node : AssetGraphNode) (st st' : BuilderState σ) (X : List Nat),
      ReachableFrom children gate root node → node.id ∈ st.visited →
      st.errors = [] → ReachInv children gate root st (node.id :: X) →
      PendInv children gate root st →
      visit G api fuel node st = .ok st' →
      ReachInv children gate root st' X ∧ PendInv children gate root st') :
    ∀ (cs : List AssetGraphNode) (node : AssetGraphNode)
      (st st' : BuilderState σ) (X : List Nat),
      (∀ c ∈ cs, c ∈ children node) →
      ReachableFrom children gate root node →
      st.errors = [] →
      ReachInv children gate root st (node.id :: X) →
      PendInv children gate root st →
      visitChildrenF G (visit G api fuel) cs node st = .ok st' →
      ReachInv children gate root st' (node.id :: X) ∧
      PendInv children gate root st' ∧
      (∀ c ∈ cs, gate node c = true → c.id ∈ st'.visited) := by
  intro cs
  induction cs with
  | nil =>
    intro node st st' X hcs hreach herr hinv hpend h
    cases h
    exact ⟨hinv, hpend, by simp⟩
  | cons c rest ihl =>
    intro node st st' X hcs hreach herr hinv hpend h
    have hcchild : c ∈ children node := hcs c (List.mem_cons_self c rest)
    have hrest : ∀ x ∈ rest, x ∈ children node :=
      fun x hx => hcs x (List.mem_cons_of_mem c hx)
    have hcdef : c.hasDeferred = false := by
      apply HD st.graph node c
      rw [Hst.1]
      exact hcchild
    by_cases hcond : ((!(st.visited.contains c.id) || c.hasDeferred) &&
        G.shouldVisitChild st.graph node c) = true
    · have h1 := hcond
      rw [Bool.and_eq_true] at h1
      have hgate : gate node c = true := by
        rw [← Hst.2 st.graph node c]
        exact h1.2
      have hnotvis : c.id ∉ st.visited := by
        have h2 := h1.1
        rw [hcdef, Bool.or_false, Bool.not_eq_true'] at h2
        simpa using h2
      have hreachc : ReachableFrom children gate root c :=
        .step hreach hcchild hgate
      have herr1 : ({ st with visited := c.id :: st.visited } :
          BuilderState σ).errors = [] := herr
      have hinv1 : ReachInv children gate root
          ({ st with visited := c.id :: st.visited } : BuilderState σ)
          (c.id :: node.id :: X) := by
        intro q hq hqv
        rcases List.mem_cons.mp hqv with hqc | hqold
        · left
          exact List.mem_cons.mpr (Or.inl hqc)
        · rcases hinv q hq hqold with hx | hcov | hpen
          · left
            exact List.mem_cons_of_mem _ hx
          · right; left
            intro cc hcc hgc
            exact List.mem_cons_of_mem _ (hcov cc hcc hgc)
          · right; right
            exact hpen
      have hpend1 : PendInv children gate root
          ({ st with visited := c.id :: st.visited } : BuilderState σ) := by
        intro q hq
        obtain ⟨hr, hv⟩ := hpend q hq
        exact ⟨hr, List.mem_cons_of_mem _ hv⟩
      simp only [visitChildrenF, hcond, if_true] at h
      cases hv : visit G api fuel c { st with visited := c.id :: st.visited } with
      | fuelOut => rw [hv] at h; cases h
      | fatal e => rw [hv] at h; cases h
      | ok st2 =>
        rw [hv] at h
        have hvis1 : c.id ∈ ({ st with visited := c.id :: st.visited } :
            BuilderState σ).visited := List.mem_cons_self _ _
        obtain ⟨hinv2, hpend2⟩ :=
          IH c { st with visited := c.id :: st.visited } st2 (node.id :: X)
            hreachc hvis1 herr1 hinv1 hpend1 hv
        have herr2 : st2.errors = [] := by
          rw [visit_errors_eq G api fuel c _ st2 hv]
          exact herr1
        obtain ⟨hinv3, hpend3, hcov3⟩ :=
          ihl node st2 st' X hrest hreach herr2 hinv2 hpend2 h
        refine ⟨hinv3, hpend3, ?_⟩
        intro c' hc' hg'
        rcases List.mem_cons.mp hc' with rfl | hc'rest
        · have h2 := visit_visited_mono G api fuel c' _ st2 hv c'.id hvis1
          exact visitChildrenF_visited_mono G api fuel rest node st2 st' h c'.id h2
        · exact hcov3 c' hc'rest hg'
    · have hcondf : ((!(st.visited.contains c.id) || c.hasDeferred) &&
          G.shouldVisitChild st.graph node c) = false := by
        cases hb : ((!(st.visited.contains c.id) || c.hasDeferred) &&
            G.shouldVisitChild st.graph node c)
        · rfl
        · exact absurd hb hcond
      simp only [visitChildrenF, hcondf, Bool.false_eq_true, if_false] at h
      obtain ⟨hinv3, hpend3, hcov3⟩ :=
        ihl node st st' X hrest hreach herr hinv hpend h
      refine ⟨hinv3, hpend3, ?_⟩
      intro c' hc' hg'
      rcases List.mem_cons.mp hc' with rfl | hc'rest
      · have hgB : G.shouldVisitChild st.graph node c' = true := by
          rw [Hst.2 st.graph node c']
          exact hg'
        rw [hgB, Bool.and_true] at hcondf
        rw [hcdef, Bool.or_false, Bool.not_eq_false'] at hcondf
        have hm : c'.id ∈ st.visited := by simpa using hcondf
        exact visitChildrenF_visited_mono G api fuel rest node st st' h c'.id hm
      · exact hcov3 c' hc'rest hg'

theorem visit_reach_inv {σ : Type} (G : AssetGraphImpl σ) (api : RunAPI)
    (children : AssetGraphNode → List AssetGraphNode)
    (gate : AssetGraphNode → AssetGraphNode → Bool) (root : AssetGraphNode)
    (Hst : StaticStructure G children gate) (HD : NoDeferredChildren G)
    (Hinj : ∀ p q, ReachableFrom children gate root p →
      ReachableFrom children gate root q → p.id = q.id → p = q) :
    ∀ (fuel : Nat) (node : AssetGraphNode) (st st' : BuilderState σ)
      (X : List Nat),
      ReachableFrom children gate root node → node.id ∈ st.visited →
      st.errors = [] → ReachInv children gate root st (node.id :: X) →
      PendInv children gate root st →
      visit G api fuel node st = .ok st' →
      ReachInv children gate root st' X ∧ PendInv children gate root st' := by
  intro fuel
  induction fuel with
  | zero =>
    intro node st st' X _ _ _ _ _ h
    cases h
  | succ fuel ih =>
    intro node st st' X hreach hvis herr hinv hpend h
    by_cases hskip : shouldSkipRequest api node = true
    · have heq : visit G api (fuel + 1) node st =
          visitChildrenF G (visit G api fuel)
            (G.getNodesConnectedFrom st.graph node) node st := by
        simp [visit, herr, hskip]
      rw [heq, Hst.1] at h
      obtain ⟨hinv3, hpend3, hcov⟩ :=
        visitChildrenF_reach_inv G api children gate root Hst HD fuel ih
          (children node) node st st' X (fun c hc => hc) hreach herr hinv hpend h
      refine ⟨?_, hpend3⟩
      intro p hp hpv
      rcases hinv3 p hp hpv with hx | hcovp | hpen
      · rcases List.mem_cons.mp hx with hpid | hxX
        · have hpn : p = node := Hinj p node hp hreach hpid
          right; left
          rw [hpn]
          exact fun c hc hg => hcov c hc hg
        · left
          exact hxX
      · right; left
        exact hcovp
      · right; right
        exact hpen
    · have hskipf : shouldSkipRequest api node = false := by
        cases hb : shouldSkipRequest api node
        · rfl
        · exact absurd hb hskip
      have heq : visit G api (fuel + 1) node st =
          queueCorrespondingRequest node st := by
        simp [visit, herr, hskipf]
      rw [heq] at h
      have hsh := queue_ok_shape node st st' h
      constructor
      · intro p hp hpv
        rw [hsh.2.1] at hpv
        rcases hinv p hp hpv with hx | hcovp | hpen
        · rcases List.mem_cons.mp hx with hpid | hxX
          · have hpn : p = node := Hinj p node hp hreach hpid
            right; right
            rw [hsh.2.2.2.2.2.1, hpn]
            simp
          · left
            exact hxX
        · right; left
          intro c hc hg
          rw [hsh.2.1]
          exact hcovp c hc hg
        · right; right
          rw [hsh.2.2.2.2.2.1]
          exact List.mem_append_left _ hpen
      · intro q hq
        rw [hsh.2.2.2.2.2.1] at hq
        rcases List.mem_append.mp hq with hq1 | hq1
        · obtain ⟨hr, hv⟩ := hpend q hq1
          refine ⟨hr, ?_⟩
          rw [hsh.2.1]
          exact hv
        · have hqn : q = node := by simpa using hq1
          subst hqn
          refine ⟨hreach, ?_⟩
          rw [hsh.2.1]
          exact hvis

theorem drain_reach_inv {σ : Type} (G : AssetGraphImpl σ) (api : RunAPI)
    (sched : Nat → Nat) (children : AssetGraphNode → List AssetGraphNode)
    (gate : AssetGraphNode → AssetGraphNode → Bool) (root : AssetGraphNode)
    (Hst : StaticStructure G children gate) (HD : NoDeferredChildren G)
    (Hinj : ∀ p q, ReachableFrom children gate root p →
      ReachableFrom children gate root q → p.id = q.id → p = q) :
    ∀ (fuel : Nat) (st st' : BuilderState σ),
      st'.errors = [] →
      ReachInv children gate root st [] →
      PendInv children gate root st →
      drain G api sched fuel st = .ok st' →
      ReachInv children gate root st' [] ∧ st'.pending = [] := by
  intro fuel
  induction fuel with
  | zero =>
    intro st st' herr hinv hpend h
    unfold drain at h
    split at h
    · rename_i hemp
      cases h
      exact ⟨hinv, by simpa using hemp⟩
    · cases h
  | succ fuel ih =>
    intro st st' herr hinv hpend h
    cases hp : st.pending with
    | nil =>
      simp only [drain, hp] at h
      cases h
      exact ⟨hinv, hp⟩
    | cons p ps =>
      rw [drain_succ_cons G api sched fuel st p ps hp] at h
      revert h
      unfold visitChildren
      generalize hnode : (p :: ps).getD (sched fuel % (p :: ps).length) p = node
      set st1 : BuilderState σ :=
        { st with pending := (p :: ps).eraseIdx (sched fuel % (p :: ps).length) }
        with hst1
      set st2 := settleNode G api node st1 with hst2
      intro h
      cases hvc : visitChildrenF G (visit G api fuel)
          (G.getNodesConnectedFrom st2.graph node) node st2 with
      | fuelOut => rw [hvc] at h; cases h
      | fatal e => rw [hvc] at h; cases h
      | ok st3 =>
        rw [hvc] at h
        obtain ⟨t3, ht3⟩ := drain_errors_ext G api sched fuel st3 st' h
        have herr3 : st3.errors = [] := by
          rw [ht3] at herr
          exact (List.append_eq_nil.mp herr).1
        have herr2 : st2.errors = [] := by
          rw [← visitChildrenF_errors_eq G api fuel _ node st2 st3 hvc]
          exact herr3
        have hnmem : node ∈ st.pending := by
          rw [hp, ← hnode]
          exact getD_mem _ _ _ (Nat.mod_lt _ (by simp))
        obtain ⟨hreachn, hvisn⟩ := hpend node hnmem
        have hv2 : st2.visited = st.visited := by
          rw [hst2, (settle_shape G api node st1).2.1]
        have hp2 : st2.pending =
            (p :: ps).eraseIdx (sched fuel % (p :: ps).length) := by
          rw [hst2, (settle_shape G api node st1).2.2]
        have hinv2 : ReachInv children gate root st2 [node.id] := by
          intro q hq hqv
          rw [hv2] at hqv
          rcases hinv q hq hqv with hx | hcov | hpen
          · cases hx
          · right; left
            intro cc hcc hgc
            rw [hv2]
            exact hcov cc hcc hgc
          · rw [hp] at hpen
            rcases mem_eraseIdx_or_getD (p :: ps)
                (sched fuel % (p :: ps).length) q p hpen with hq1 | hq1
            · right; right
              rw [hp2]
              exact hq1
            · left
              rw [hnode] at hq1
              rw [hq1]
              exact List.mem_cons_self _ _
        have hpend2 : PendInv children gate root st2 := by
          intro q hq
          rw [hp2] at hq
          have hq' : q ∈ st.pending := by
            rw [hp]
            exact List.eraseIdx_subset _ _ hq
          obtain ⟨hr, hv⟩ := hpend q hq'
          refine ⟨hr, ?_⟩
          rw [hv2]
          exact hv
        have hvisn2 : node.id ∈ st2.visited := by
          rw [hv2]
          exact hvisn
        rw [Hst.1] at hvc
        obtain ⟨hinv3, hpend3, hcov3⟩ :=
          visitChildrenF_reach_inv G api children gate root Hst HD fuel
            (visit_reach_inv G api children gate root Hst HD Hinj fuel)
            (children node) node st2 st3 [] (fun c hc => hc) hreachn herr2
            hinv2 hpend2 hvc
        have hinv3' : ReachInv children gate root st3 [] := by
          intro q hq hqv
          rcases hinv3 q hq hqv with hx | hcov | hpen
          · rcases List.mem_cons.mp hx with hqid | hx2
            · have hqn : q = node := Hinj q node hq hreachn hqid
              right; left
              rw [hqn]
              exact fun cc hcc hgc => hcov3 cc hcc hgc
            · cases hx2
          · right; left
            exact hcov
          · right; right
            exact hpen
        exact ih st3 st' herr hinv3' hpend3 h

/-- **C2 (amended)** For every dependency graph whose child enumeration only
yields nodes with `hasPendingDeferral`/`hasDeferred` unset and with ids drawn
from a finite set `S`, the traversal performed by `build` terminates even on
graphs containing cycles — fuel `S.card + 2` always completes the pass, the
visited set seeded with the root preventing infinite recursion — and, when
moreover the graph's child enumeration and gate are fixed during the pass,
ids are injective on the reachable set, and the pass records no errors,
every node reachable from the root through gate-allowed edges (without
crossing the already-visited boundary, which initially holds only the root)
is explored: its id is in the final visited set.  (Without the deferral-free
hypothesis the claim fails, see the counterexample.) -/
theorem c2_traversal_terminates_amended {σ : Type} (G : AssetGraphImpl σ)
    (api : RunAPI) (sched : Nat → Nat) (S : Finset Nat)
    (HD : NoDeferredChildren G) (HS : IdsBounded G S) :
    (∀ g0, TraversalTerminates G api sched g0) ∧
    (∀ g0 name entries,
      (build G api sched (S.card + 2) name entries g0).result ≠ none) ∧
    (∀ (children : AssetGraphNode → List AssetGraphNode)
      (gate : AssetGraphNode → AssetGraphNode → Bool)
      (root : AssetGraphNode) (fuel : Nat) (g0 : σ) (st2 : BuilderState σ),
      StaticStructure G children gate →
      (∀ p q, ReachableFrom children gate root p →
        ReachableFrom children gate root q → p.id = q.id → p = q) →
      G.getRootNode g0 = some root →
      buildTrace G api sched fuel g0 = .ok st2 →
      st2.errors = [] →
      ∀ p, ReachableFrom children gate root p → p.id ∈ st2.visited) := by
  refine ⟨fun g0 =>
    ⟨S.card + 2, buildTrace_terminates_of_bounded G api sched S HD HS g0⟩,
    ?_, ?_⟩
  · intro g0 name entries h
    have hne := buildTrace_terminates_of_bounded G api sched S HD HS g0
    unfold build at h
    split at h
    · rename_i heq
      exact hne heq
    · cases h
    · cases h
    · split at h <;> cases h
  · intro children gate root fuel g0 st2 Hst Hinj hroot htrace herr p hp
    unfold buildTrace at htrace
    simp only [hroot] at htrace
    revert htrace
    cases hvis : visit G api fuel root ⟨g0, [root.id], [], [], [], [], []⟩ with
    | fuelOut => intro htrace; cases htrace
    | fatal e => intro htrace; cases htrace
    | ok st1 =>
      intro htrace
      have herr1 : st1.errors = [] := by
        have := visit_errors_eq G api fuel root _ st1 hvis
        simpa using this
      have hinv0 : ReachInv children gate root
          (⟨g0, [root.id], [], [], [], [], []⟩ : BuilderState σ)
          (root.id :: []) := by
        intro q hq hqv
        left
        simpa using hqv
      have hpend0 : PendInv children gate root
          (⟨g0, [root.id], [], [], [], [], []⟩ : BuilderState σ) := by
        intro q hq
        exact absurd hq (List.not_mem_nil q)
      obtain ⟨hinv1, hpend1⟩ := visit_reach_inv G api children gate root Hst
        HD Hinj fuel root _ st1 [] .refl (by simp) rfl hinv0 hpend0 hvis
      obtain ⟨hinv2, hpend2⟩ := drain_reach_inv G api sched children gate root
        Hst HD Hinj fuel st1 st2 herr hinv1 hpend1 htrace
      have hrootvis : root.id ∈ st2.visited := by
        have h1 : root.id ∈
            (⟨g0, [root.id], [], [], [], [], []⟩ : BuilderState σ).visited := by
          simp
        have h2 := visit_visited_mono G api fuel root _ st1 hvis root.id h1
        exact drain_visited_mono G api sched fuel st1 st2 htrace root.id h2
      induction hp with
      | refl => exact hrootvis
      | step hq hc hg ihq =>
        rcases hinv2 _ hq ihq with hx | hcov | hpen
        · cases hx
        · exact hcov _ hc hg
        · rw [hpend2] at hpen
          cases hpen

/-- Witness for the amended C2: the loop-free demo graph has deferral-free
children with ids below 4, so `build` completes at the computed fuel. -/
theorem c2_traversal_terminates_amended_witness :
    TraversalTerminates demoGraph demoApiOk fifo () ∧
    (build demoGraph demoApiOk fifo
      (({0, 1, 2, 3} : Finset Nat).card + 2) 0 [] ()).result ≠ none := by
  have hHD : NoDeferredChildren demoGraph := by
    intro g n c hc
    simp only [demoGraph, unitGraph] at hc
    by_cases h0 : n.id = 0
    · rw [if_pos h0] at hc
      simp only [List.mem_cons, List.not_mem_nil, or_false] at hc
      rcases hc with rfl | rfl | rfl <;> rfl
    · rw [if_neg h0] at hc
      exact absurd hc (List.not_mem_nil c)
  have hHS : IdsBounded demoGraph ({0, 1, 2, 3} : Finset Nat) := by
    intro g n c hc
    simp only [demoGraph, unitGraph] at hc
    by_cases h0 : n.id = 0
    · rw [if_pos h0] at hc
      simp only [List.mem_cons, List.not_mem_nil, or_false] at hc
      rcases hc with rfl | rfl | rfl <;> decide
    · rw [if_neg h0] at hc
      exact absurd hc (List.not_mem_nil c)
  exact ⟨(c2_traversal_terminates_amended demoGraph demoApiOk fifo _ hHD hHS).1 (),
    (c2_traversal_terminates_amended demoGraph demoApiOk fifo _ hHD hHS).2.1 () 0 []⟩
